import Mathlib

/-!
# The PBFT store adaptor (`src/consensus/pbft/pbfttypes.h`)

A shallow embedding of `pbft::Adaptor<T, S>`, the bridge between the PBFT
consensus engine and the key-value store.

The adaptor is a template over the store type `T`; the store, the transaction
`ccf::Store::Tx` and the types of `kv/kvtypes.h` are not part of the embedded
sources.  They enter the embedding as parameters:

* `W` is the state of everything the adaptor can reach through its references
  (the store behind the weak pointer, the transaction, the pre-prepares map);
* `StoreOps W B S` is the method table of `T`, every method a transformer of `W`;
* `TxOps W B` is the method table of `ccf::Store::Tx` and of the map view.

Every adaptor method returns, next to its result and the new state, the list of
the calls it made on the store, in order.
-/

namespace pbft

/-- Log position, `using Index = uint64_t`. -/
abbrev Index := Nat

/-- View number, `using Term = uint64_t`. -/
abbrev Term := Nat

/-- The store version `kv::Version` (a signed integer in `kv/kvtypes.h`). -/
abbrev Version := Int

/-- Modelled from the spec: the agreed batch `pbft::PrePrepare` of
`consensus/pbft/pbftpreprepares.h`, an immutable record with a sequence number
and the request payloads.  The adaptor reads only `seqno` (for the trace log). -/
structure PrePrepare where
  seqno : Nat
  contents : List Nat
deriving DecidableEq, Repr

/-- Modelled from the spec: the outcome `kv::CommitSuccess` of finalising a
transaction.  The adaptor only compares it with `OK`; `CONFLICT` is the
contention outcome and `NO_REPLICATE` stands for any other outcome. -/
inductive CommitSuccess where
  | OK
  | CONFLICT
  | NO_REPLICATE
deriving DecidableEq, Repr

/-- The methods of `ccf::Store::Tx` and of the map view that the commit closure
calls.  A transaction and a map are named by their address. -/
structure TxOps (W B : Type) where
  /-- The call `tx.set_reserved_version(version)`. -/
  set_reserved_version : (tx : Nat) → Version → W → W
  /-- The call `tx.get_view(map)`. -/
  get_view : (tx : Nat) → (map : Nat) → W → W
  /-- The call `view->put(key, value)` on the view of `map` in `tx`. -/
  put : (tx : Nat) → (map : Nat) → (key : Nat) → PrePrepare → W → W
  /-- The call `tx.commit_reserved()`. -/
  commit_reserved : (tx : Nat) → W → B × W

/-- The methods of the store type `T` that the adaptor calls through its
pointer.  `term` and `tx` of `deserialise_views` are nullable pointers. -/
structure StoreOps (W B S : Type) where
  deserialise_views :
    (data : List Nat) → (public_only : Bool) → (commit : Bool) →
      (term : Option Nat) → (tx : Option Nat) → W → S × W
  next_version : W → Version × W
  commit : Version → (W → B × W) → (globally_committable : Bool) → W → CommitSuccess × W
  compact : Index → W → W
  current_version : W → Version × W

/-- A call made by the adaptor on the store, with its arguments and result. -/
inductive Call (S : Type) where
  | deserialise_views (data : List Nat) (public_only : Bool) (commit : Bool)
      (term : Option Nat) (tx : Option Nat) (ret : S)
  | next_version (ret : Version)
  | commit (version : Version) (globally_committable : Bool) (ret : CommitSuccess)
  | compact (v : Index)
  | current_version (ret : Version)
deriving DecidableEq, Repr

/-- The class `Adaptor<T, S>`: its only member is `std::weak_ptr<T> x`.  `T` is
the method table of the pointee and `expired w` tells whether the pointee has
been destroyed in state `w`. -/
structure Adaptor (W B S : Type) where
  T : StoreOps W B S
  expired : W → Bool

variable {W B S : Type}

/-- The call `x.lock()`: the pointee when it still exists, null otherwise. -/
def Adaptor.lock (A : Adaptor W B S) (w : W) : Option (StoreOps W B S) :=
  if A.expired w then none else some A.T

/-- The closure passed to `p->commit` (lines 101-106). -/
def commit_closure (X : TxOps W B) (pp : PrePrepare) (map tx : Nat) (version : Version) :
    W → B × W :=
  fun w =>
    let w1 := X.set_reserved_version tx version w
    let w2 := X.get_view tx map w1
    let w3 := X.put tx map 0 pp w2
    X.commit_reserved tx w3

/-- One attempt on a locked store `p` (lines 97-107): the version obtained, the
outcome of the commit and the state left. -/
def attempt (p : StoreOps W B S) (X : TxOps W B) (pp : PrePrepare) (map tx : Nat) (w : W) :
    Version × CommitSuccess × W :=
  let r := p.next_version w
  let c := p.commit r.1 (commit_closure X pp map tx r.1) false r.2
  (r.1, c.1, c.2)

/-- One pass through the body of `while (true)` (lines 94-112): whether the
pass ends in `break`, the state left and the store calls made. -/
def Adaptor.iteration (A : Adaptor W B S) (X : TxOps W B) (pp : PrePrepare) (map tx : Nat)
    (w : W) : Bool × W × List (Call S) :=
  match A.lock w with
  | some p =>
    let a := attempt p X pp map tx w
    (decide (a.2.1 = CommitSuccess.OK), a.2.2,
      [Call.next_version a.1, Call.commit a.1 false a.2.1])
  | none => (false, w, [])

/-- The method `Adaptor::commit_pre_prepare` (lines 87-114).  The loop has no bound in the
source; here it runs for at most `fuel` passes and `none` means that it has not
left the loop within them. -/
def Adaptor.commit_pre_prepare (A : Adaptor W B S) (X : TxOps W B) (pp : PrePrepare)
    (map tx : Nat) : (fuel : Nat) → W → Option (W × List (Call S))
  | 0, _ => none
  | fuel + 1, w =>
    match A.iteration X pp map tx w with
    | (true, w1, cs) => some (w1, cs)
    | (false, w1, cs) =>
      (A.commit_pre_prepare X pp map tx fuel w1).map (fun r => (r.1, cs ++ r.2))

/-- The method `Adaptor::deserialise_views` (lines 73-85); `FAILED` is `S::FAILED`. -/
def Adaptor.deserialise_views (A : Adaptor W B S) (FAILED : S) (data : List Nat)
    (public_only : Bool) (commit : Bool) (term : Option Nat) (tx : Option Nat) (w : W) :
    S × W × List (Call S) :=
  match A.lock w with
  | some p =>
    let r := p.deserialise_views data public_only commit term tx w
    (r.1, r.2, [Call.deserialise_views data public_only commit term tx r.1])
  | none => (FAILED, w, [])

/-- The method `Adaptor::compact` (lines 116-123). -/
def Adaptor.compact (A : Adaptor W B S) (v : Index) (w : W) : W × List (Call S) :=
  match A.lock w with
  | some p => (p.compact v w, [Call.compact v])
  | none => (w, [])

/-- The method `Adaptor::current_version` (lines 125-133); `NoVersion` is `kv::NoVersion`. -/
def Adaptor.current_version (A : Adaptor W B S) (NoVersion : Version) (w : W) :
    Version × W × List (Call S) :=
  match A.lock w with
  | some p =>
    let r := p.current_version w
    (r.1, r.2, [Call.current_version r.1])
  | none => (NoVersion, w, [])

/-! ## Reading a list of store calls -/

/-- The store calls of a run of attempts, each given by the version it
obtained and the outcome of its commit: `next_version` first, then `commit`
with that version. -/
def calls_of_attempts : List (Version × CommitSuccess) → List (Call S)
  | [] => []
  | a :: rest => Call.next_version a.1 :: Call.commit a.1 false a.2 :: calls_of_attempts rest

/-- The versions returned by the `next_version` calls, in order. -/
def next_versions : List (Call S) → List Version
  | [] => []
  | Call.next_version v :: cs => v :: next_versions cs
  | _ :: cs => next_versions cs

/-- The `commit` calls, each with the version passed and its outcome, in order. -/
def commits : List (Call S) → List (Version × CommitSuccess)
  | [] => []
  | Call.commit v _ r :: cs => (v, r) :: commits cs
  | _ :: cs => commits cs

/-- The versions of the `commit` calls that reported `OK`, in order. -/
def ok_versions (cs : List (Call S)) : List Version :=
  ((commits cs).filter (fun c => decide (c.2 = CommitSuccess.OK))).map Prod.fst

/-- The versions returned by the `next_version` calls of a delivery, in order:
those of the first batch, then those of the second, and so on. -/
def all_next_versions : List (List (Call S)) → List Version
  | [] => []
  | cs :: rest => next_versions cs ++ all_next_versions rest

/-! ## Stores under contention and the delivery of several batches -/

/-- The first `n` attempts for `pp` from state `w` on the store of `A`: the
version each obtains and the outcome of its commit. -/
def Adaptor.attempts (A : Adaptor W B S) (X : TxOps W B) (pp : PrePrepare) (map tx : Nat) :
    Nat → W → List (Version × CommitSuccess)
  | 0, _ => []
  | n + 1, w =>
    let a := attempt A.T X pp map tx w
    (a.1, a.2.1) :: A.attempts X pp map tx n a.2.2

/-- The state left by `n` attempts for `pp` from state `w`. -/
def Adaptor.after_attempts (A : Adaptor W B S) (X : TxOps W B) (pp : PrePrepare)
    (map tx : Nat) : Nat → W → W
  | 0, w => w
  | n + 1, w => A.after_attempts X pp map tx n (attempt A.T X pp map tx w).2.2

/-- From state `w` the store exists at every attempt for `pp`, its commit
reports a non-OK outcome on the first `k` attempts and OK on attempt `k + 1`. -/
def Adaptor.ConflictsThenOK (A : Adaptor W B S) (X : TxOps W B) (pp : PrePrepare)
    (map tx : Nat) : Nat → W → Prop
  | 0, w => A.expired w = false ∧ (attempt A.T X pp map tx w).2.1 = CommitSuccess.OK
  | k + 1, w =>
    A.expired w = false ∧ (attempt A.T X pp map tx w).2.1 ≠ CommitSuccess.OK ∧
      A.ConflictsThenOK X pp map tx k (attempt A.T X pp map tx w).2.2

/-- The delivery path of the consensus engine: the batches are handed to
`commit_pre_prepare` one after another, each call starting in the state the
previous one left.  The result lists the store calls of every batch. -/
def Adaptor.deliver (A : Adaptor W B S) (X : TxOps W B) (map tx : Nat) (fuel : Nat) :
    List PrePrepare → W → Option (W × List (List (Call S)))
  | [], w => some (w, [])
  | pp :: rest, w =>
    match A.commit_pre_prepare X pp map tx fuel w with
    | none => none
    | some (w1, cs) => (A.deliver X map tx fuel rest w1).map (fun r => (r.1, cs :: r.2))

/-- Every batch of the list, paired with the number of conflicts it meets, is
contended that many times and then accepted, in the state its predecessors left. -/
def Adaptor.AllSettle (A : Adaptor W B S) (X : TxOps W B) (map tx : Nat) :
    List (PrePrepare × Nat) → W → Prop
  | [], _ => True
  | (pp, k) :: rest, w =>
    A.ConflictsThenOK X pp map tx k w ∧
      A.AllSettle X map tx rest (A.after_attempts X pp map tx (k + 1) w)

/-! ## A store that follows the spec -/

/-- Modelled from the spec: the outcome `kv::DeserialiseSuccess` of
`kv/kvtypes.h`, "success / failure". -/
inductive DeserialiseSuccess where
  | FAILED
  | PASS
deriving DecidableEq, Repr

/-- Modelled from the spec: the state of the storage engine (`kv::Store`, not
among the sources), of the transaction and of the pre-prepares map.
`version` is the store version, `held` the number of coming finalisations
during which a competing local transaction holds the slot of the next version,
`teardown` the number of further commits after which the node process destroys
the engine, `reserved` and `writes` the reserved version and the write set of
the open transaction. -/
structure KV where
  alive : Bool
  version : Version
  held : Nat
  teardown : Option Nat
  compacted : Index
  pre_prepares : List (Nat × PrePrepare)
  reserved : Option Version
  writes : List (Nat × PrePrepare)
deriving DecidableEq, Repr

/-- Modelled from the spec: the transaction of the storage engine.  Finalising
reports a conflict while a competing local transaction holds the slot, or when
the reserved version is not the next one; otherwise the write set is applied
and the store version "advances by exactly one". -/
def KV.tx : TxOps KV CommitSuccess where
  set_reserved_version := fun _ v w => { w with reserved := some v }
  get_view := fun _ _ w => w
  put := fun _ _ key pp w => { w with writes := (key, pp) :: w.writes }
  commit_reserved := fun _ w =>
    if 0 < w.held then
      (CommitSuccess.CONFLICT, { w with held := w.held - 1, reserved := none, writes := [] })
    else if w.reserved = some (w.version + 1) then
      (CommitSuccess.OK,
        { w with version := w.version + 1, pre_prepares := w.writes ++ w.pre_prepares,
                 reserved := none, writes := [] })
    else
      (CommitSuccess.CONFLICT, { w with reserved := none, writes := [] })

/-- Modelled from the spec: the storage engine.  `next_version` is "the next
store version", one past the current one; the version itself only "advances by
exactly one per successfully committed transaction".  `commit` runs the
transaction and reports its outcome. -/
def KV.store : StoreOps KV CommitSuccess DeserialiseSuccess where
  deserialise_views := fun data _ commit _ _ w =>
    if data = [] then (DeserialiseSuccess.FAILED, w)
    else (DeserialiseSuccess.PASS, if commit then { w with version := w.version + 1 } else w)
  next_version := fun w => (w.version + 1, w)
  commit := fun _ body _ w =>
    let r := body w
    (r.1,
      match r.2.teardown with
      | none => r.2
      | some 0 => { r.2 with alive := false, teardown := none }
      | some (n + 1) => { r.2 with teardown := some n })
  compact := fun v w => { w with compacted := max w.compacted v }
  current_version := fun w => (w.version, w)

/-- Modelled from the spec: the adaptor over the storage engine `KV.store`. -/
def KV.adaptor : Adaptor KV CommitSuccess DeserialiseSuccess where
  T := KV.store
  expired := fun w => !w.alive

/-- Modelled from the spec: "an empty store at version 0". -/
def KV.empty : KV :=
  { alive := true, version := 0, held := 0, teardown := none, compacted := 0,
    pre_prepares := [], reserved := none, writes := [] }

/-- Modelled from the spec: the "no version" sentinel `kv::NoVersion`, a value
that no store reports as its version (here the least 64-bit signed integer). -/
def KV.NoVersion : Version := -(2 ^ 63)

/-- The record of the pre-prepares map at `key`. -/
def KV.get (w : KV) (key : Nat) : Option PrePrepare :=
  w.pre_prepares.lookup key

/-! ## A store that hands out a fresh version at every call

An input for the theorems that hold for every store.  Its state is the last
version handed out and the number of commits still to be turned down. -/

/-- A transaction without state, for `Counting.adaptor`. -/
def Counting.tx : TxOps (Version × Nat) Unit where
  set_reserved_version := fun _ _ w => w
  get_view := fun _ _ w => w
  put := fun _ _ _ _ w => w
  commit_reserved := fun _ w => ((), w)

/-- An adaptor over a store that never disappears, whose `next_version` counts
up at every call and whose `commit` is turned down while the second component
of the state is positive. -/
def Counting.adaptor : Adaptor (Version × Nat) Unit Unit where
  T :=
    { deserialise_views := fun _ _ _ _ _ w => ((), w)
      next_version := fun w => (w.1 + 1, (w.1 + 1, w.2))
      commit := fun _ body _ w =>
        if 0 < w.2 then (CommitSuccess.CONFLICT, (w.1, w.2 - 1))
        else (CommitSuccess.OK, (body w).2)
      compact := fun _ w => w
      current_version := fun w => (w.1, w) }
  expired := fun _ => false

/-! ## The wire messages (lines 11-43) -/

/-- The type `Node2NodeMsg`, `uint64_t`: the underlying type of the message tags. -/
abbrev Node2NodeMsg := Nat

/-- The type `NodeId`, `uint64_t`. -/
abbrev NodeId := Nat

/-- The enumerator `pbft_message = 1000` of `PbftMsgType`. -/
def pbft_message : Node2NodeMsg := 1000

/-- The enumerator `pbft_append_entries` of `PbftMsgType`, one more than the
enumerator before it. -/
def pbft_append_entries : Node2NodeMsg := pbft_message + 1

/-- The enumerator `pbft_status_message` of `PbftMsgType`, one more than the
enumerator before it. -/
def pbft_status_message : Node2NodeMsg := pbft_append_entries + 1

/-- The struct `PbftHeader`.  The field `msg` has the enumeration type
`PbftMsgType`, whose values are those of its underlying type `uint64_t`. -/
structure PbftHeader where
  msg : Node2NodeMsg
  from_node : NodeId
deriving DecidableEq, Repr

/-- The struct `AppendEntries : PbftHeader`. -/
structure AppendEntries extends PbftHeader where
  idx : Index
  prev_idx : Index
deriving DecidableEq, Repr

/-- The struct `StatusMessage : PbftHeader`. -/
structure StatusMessage extends PbftHeader where
  idx : Index
deriving DecidableEq, Repr

/-- The fields of a header are values of `uint64_t`. -/
def PbftHeader.fits (h : PbftHeader) : Prop :=
  h.msg < 2 ^ 64 ∧ h.from_node < 2 ^ 64

/-- The fields of the message are values of `uint64_t`. -/
def AppendEntries.fits (a : AppendEntries) : Prop :=
  a.toPbftHeader.fits ∧ a.idx < 2 ^ 64 ∧ a.prev_idx < 2 ^ 64

/-- The fields of the message are values of `uint64_t`. -/
def StatusMessage.fits (m : StatusMessage) : Prop :=
  m.toPbftHeader.fits ∧ m.idx < 2 ^ 64

/-- Modelled from the spec: the byte order of the "fixed byte layout", which
the spec leaves open; the writing and reading of messages is not among the
sources. -/
inductive ByteOrder where
  | little
  | big
deriving DecidableEq, Repr

/-- Modelled from the spec: the eight bytes of an "unsigned 64-bit" field,
least significant byte first. -/
def bytes64_le (x : Nat) : List Nat :=
  [x % 256, x / 256 % 256, x / 256 ^ 2 % 256, x / 256 ^ 3 % 256, x / 256 ^ 4 % 256,
    x / 256 ^ 5 % 256, x / 256 ^ 6 % 256, x / 256 ^ 7 % 256]

/-- Modelled from the spec: the value of a run of bytes, least significant
byte first. -/
def read_le : List Nat → Nat
  | [] => 0
  | b :: rest => b % 256 + 256 * read_le rest

/-- Modelled from the spec: the eight bytes of an "unsigned 64-bit" field in
the given byte order. -/
def bytes64 (o : ByteOrder) (x : Nat) : List Nat :=
  match o with
  | ByteOrder.little => bytes64_le x
  | ByteOrder.big => (bytes64_le x).reverse

/-- Modelled from the spec: the field read from the first eight bytes of `bs`
in the given byte order. -/
def read64 (o : ByteOrder) (bs : List Nat) : Nat :=
  match o with
  | ByteOrder.little => read_le (bs.take 8)
  | ByteOrder.big => read_le (bs.take 8).reverse

/-- Modelled from the spec: the byte image of a `MessageHeader`, "kind tag +
sender id" in "a fixed, packed byte layout (no implicit padding)". -/
def PbftHeader.image (o : ByteOrder) (h : PbftHeader) : List Nat :=
  bytes64 o h.msg ++ bytes64 o h.from_node

/-- Modelled from the spec: the byte image of a `LogReplicationMessage`,
"header + `current_index` + `previous_index`". -/
def AppendEntries.image (o : ByteOrder) (a : AppendEntries) : List Nat :=
  a.toPbftHeader.image o ++ bytes64 o a.idx ++ bytes64 o a.prev_idx

/-- Modelled from the spec: the byte image of a `StatusMessage`, "header +
`current_index`". -/
def StatusMessage.image (o : ByteOrder) (m : StatusMessage) : List Nat :=
  m.toPbftHeader.image o ++ bytes64 o m.idx

/-- Modelled from the spec: reading a header back from the bytes of a message;
too few bytes are "rejected and reported". -/
def PbftHeader.read (o : ByteOrder) (bs : List Nat) : Option PbftHeader :=
  if bs.length < 16 then none
  else some { msg := read64 o bs, from_node := read64 o (bs.drop 8) }

/-- Modelled from the spec: reading a log-replication message back from bytes. -/
def AppendEntries.read (o : ByteOrder) (bs : List Nat) : Option AppendEntries :=
  if bs.length < 32 then none
  else
    some { msg := read64 o bs, from_node := read64 o (bs.drop 8),
           idx := read64 o (bs.drop 16), prev_idx := read64 o (bs.drop 24) }

/-- Modelled from the spec: reading a status message back from bytes. -/
def StatusMessage.read (o : ByteOrder) (bs : List Nat) : Option StatusMessage :=
  if bs.length < 24 then none
  else
    some { msg := read64 o bs, from_node := read64 o (bs.drop 8),
           idx := read64 o (bs.drop 16) }

/-! ## The commit closure, call by call -/

/-- A call made on the transaction or on the map view, with its arguments. -/
inductive TxCall where
  | set_reserved_version (tx : Nat) (version : Version)
  | get_view (tx : Nat) (map : Nat)
  | put (tx : Nat) (map : Nat) (key : Nat) (value : PrePrepare)
  | commit_reserved (tx : Nat)
deriving DecidableEq, Repr

/-- The transaction `X` with a record of the calls made on it: every method
does what it does in `X` and adds its call at the end of the record. -/
def TxOps.logged (X : TxOps W B) : TxOps (W × List TxCall) B where
  set_reserved_version := fun tx v s =>
    (X.set_reserved_version tx v s.1, s.2 ++ [TxCall.set_reserved_version tx v])
  get_view := fun tx map s => (X.get_view tx map s.1, s.2 ++ [TxCall.get_view tx map])
  put := fun tx map key pp s => (X.put tx map key pp s.1, s.2 ++ [TxCall.put tx map key pp])
  commit_reserved := fun tx s =>
    ((X.commit_reserved tx s.1).1, (X.commit_reserved tx s.1).2,
      s.2 ++ [TxCall.commit_reserved tx])

end pbft

/-! # The TESS application (`src/apps/tess/tess.cpp`) -/

namespace ccf

/-- The type `ReleaseID`, `size_t`: an unsigned integer of 64 bits. -/
abbrev ReleaseID := Nat

/-- The type `ccf::CallerId`, an unsigned integer of 64 bits. -/
abbrev CallerId := Nat

/-- The enumeration `TessApp::Role`. -/
inductive Role where
  | Contributor
  | Reviewer
  | Builder
  | Publisher
  | Admin
deriving DecidableEq, Repr

/-- The type `Roles`, `std::set<Role>`. -/
abbrev Roles := Finset Role

/-- Modelled from the spec: a map of the "transactional key-value store" as a
transaction sees it (`Store::Map<K, V>` and its view are not among the
sources): the value at each key, if any. -/
abbrev MapView (K V : Type) := K → Option V

/-- Modelled from the spec: the call `view->get(key)`, the value at `key`, if any. -/
def MapView.get {K V : Type} (v : MapView K V) (key : K) : Option V := v key

/-- Modelled from the spec: the call `view->put(key, value)`, after which
`value` is at `key` and every other key is as before. -/
def MapView.put {K V : Type} [DecidableEq K] (v : MapView K V) (key : K) (value : V) :
    MapView K V :=
  fun k => if k = key then some value else v k

/-- The store as the transaction `tx` sees it: the maps `user_roles` and
`next_release` of `TessApp`, and `rest` for the other maps. -/
structure Tx (R : Type) where
  user_roles : MapView CallerId Roles
  next_release : MapView Nat ReleaseID
  rest : R

variable {R : Type}

/-- The method `TessApp::get_roles` (lines 176-188): the roles returned and the
store it leaves. -/
def TessApp.get_roles (tx : Tx R) (user : CallerId) : Roles × Tx R :=
  let rv := tx.user_roles
  let r := rv.get user
  let roles : Roles := r.getD ∅
  let roles := insert Role.Admin roles
  (roles, tx)

/-- The method `TessApp::get_next_release` (lines 190-198): the identifier
returned and the store it leaves.  `id + 1` is an addition of `size_t`. -/
def TessApp.get_next_release (tx : Tx R) : ReleaseID × Tx R :=
  let v := tx.next_release
  let it := v.get 0
  let id := it.getD 0
  let v := v.put 0 ((id + 1) % 2 ^ 64)
  (id, { tx with next_release := v })

/-- The store after `k` calls of `get_next_release`, each made in the store the
one before it left. -/
def TessApp.after_releases : Nat → Tx R → Tx R
  | 0, tx => tx
  | k + 1, tx => TessApp.after_releases k (TessApp.get_next_release tx).2

/-- The identifiers returned by `k` calls of `get_next_release`, each made in
the store the one before it left. -/
def TessApp.releases : Nat → Tx R → List ReleaseID
  | 0, _ => []
  | k + 1, tx =>
    (TessApp.get_next_release tx).1 :: TessApp.releases k (TessApp.get_next_release tx).2

/-- A store in which no map holds anything. -/
def TessApp.empty_store : Tx Unit :=
  { user_roles := fun _ => none, next_release := fun _ => none, rest := () }

/-- The struct `CurlReadData`: `ptr` is the position in memory of the next byte
to hand out and `size` the number of bytes left. -/
structure CurlReadData where
  ptr : Nat
  size : Nat
deriving DecidableEq, Repr

/-- The bytes that `read_data` still has to hand out, in the memory `mem`. -/
def CurlReadData.remaining (mem : List Nat) (read_data : CurlReadData) : List Nat :=
  (mem.drop read_data.ptr).take read_data.size

/-- The function `curl_readfunc` (lines 135-144), reading from the memory
`mem`: the count returned, the bytes copied to `buffer` and `read_data` after
the call.  `size * nitems` is a product of `size_t`. -/
def curl_readfunc (mem : List Nat) (size nitems : Nat) (read_data : CurlReadData) :
    Nat × List Nat × CurlReadData :=
  let nbytes := min (size * nitems % 2 ^ 64) read_data.size
  let copied := (mem.drop read_data.ptr).take nbytes
  (nbytes, copied, { ptr := read_data.ptr + nbytes, size := read_data.size - nbytes })

/-- A sequence of calls of `curl_readfunc`, one for each pair `(size, nitems)`,
on the same `read_data`: the count and the bytes copied of every call, and
`read_data` at the end. -/
def curl_reads (mem : List Nat) :
    List (Nat × Nat) → CurlReadData → List (Nat × List Nat) × CurlReadData
  | [], read_data => ([], read_data)
  | q :: rest, read_data =>
    let r := curl_readfunc mem q.1 q.2 read_data
    let rs := curl_reads mem rest r.2.2
    ((r.1, r.2.1) :: rs.1, rs.2)

/-- The bytes copied by a sequence of calls, one chunk after the other. -/
def copied_bytes : List (Nat × List Nat) → List Nat
  | [] => []
  | c :: rest => c.2 ++ copied_bytes rest

/-- The sum of the counts returned by a sequence of calls. -/
def returned_total : List (Nat × List Nat) → Nat
  | [] => 0
  | c :: rest => c.1 + returned_total rest

end ccf

namespace pbft

variable {W B S : Type}

/-! ## The loop of `commit_pre_prepare`, pass by pass -/

theorem iteration_of_expired (A : Adaptor W B S) (X : TxOps W B) (pp : PrePrepare)
    (map tx : Nat) (w : W) (h : A.expired w = true) :
    A.iteration X pp map tx w = (false, w, []) := by
  simp [Adaptor.iteration, Adaptor.lock, h]

theorem iteration_of_alive (A : Adaptor W B S) (X : TxOps W B) (pp : PrePrepare)
    (map tx : Nat) (w : W) (h : A.expired w = false) :
    A.iteration X pp map tx w =
      (decide ((attempt A.T X pp map tx w).2.1 = CommitSuccess.OK),
        (attempt A.T X pp map tx w).2.2,
        [Call.next_version (attempt A.T X pp map tx w).1,
          Call.commit (attempt A.T X pp map tx w).1 false (attempt A.T X pp map tx w).2.1]) := by
  simp [Adaptor.iteration, Adaptor.lock, h]

theorem commit_pre_prepare_expired_step (A : Adaptor W B S) (X : TxOps W B) (pp : PrePrepare)
    (map tx : Nat) (fuel : Nat) (w : W) (h : A.expired w = true) :
    A.commit_pre_prepare X pp map tx (fuel + 1) w = A.commit_pre_prepare X pp map tx fuel w := by
  simp [Adaptor.commit_pre_prepare, iteration_of_expired A X pp map tx w h]

theorem commit_pre_prepare_ok_step (A : Adaptor W B S) (X : TxOps W B) (pp : PrePrepare)
    (map tx : Nat) (fuel : Nat) (w : W) (h : A.expired w = false)
    (hok : (attempt A.T X pp map tx w).2.1 = CommitSuccess.OK) :
    A.commit_pre_prepare X pp map tx (fuel + 1) w =
      some ((attempt A.T X pp map tx w).2.2,
        [Call.next_version (attempt A.T X pp map tx w).1,
          Call.commit (attempt A.T X pp map tx w).1 false CommitSuccess.OK]) := by
  simp [Adaptor.commit_pre_prepare, iteration_of_alive A X pp map tx w h, hok]

theorem commit_pre_prepare_conflict_step (A : Adaptor W B S) (X : TxOps W B) (pp : PrePrepare)
    (map tx : Nat) (fuel : Nat) (w : W) (h : A.expired w = false)
    (hne : (attempt A.T X pp map tx w).2.1 ≠ CommitSuccess.OK) :
    A.commit_pre_prepare X pp map tx (fuel + 1) w =
      (A.commit_pre_prepare X pp map tx fuel (attempt A.T X pp map tx w).2.2).map
        (fun r => (r.1,
          Call.next_version (attempt A.T X pp map tx w).1 ::
            Call.commit (attempt A.T X pp map tx w).1 false (attempt A.T X pp map tx w).2.1 ::
              r.2)) := by
  simp [Adaptor.commit_pre_prepare, iteration_of_alive A X pp map tx w h, hne]

theorem commit_pre_prepare_expired (A : Adaptor W B S) (X : TxOps W B) (pp : PrePrepare)
    (map tx : Nat) (w : W) (h : A.expired w = true) (fuel : Nat) :
    A.commit_pre_prepare X pp map tx fuel w = none := by
  induction fuel with
  | zero => rfl
  | succ n ih => rw [commit_pre_prepare_expired_step A X pp map tx n w h, ih]

/-! ## Lists of store calls -/

theorem calls_of_attempts_append (l₁ l₂ : List (Version × CommitSuccess)) :
    (calls_of_attempts (l₁ ++ l₂) : List (Call S)) =
      calls_of_attempts l₁ ++ calls_of_attempts l₂ := by
  induction l₁ with
  | nil => rfl
  | cons a rest ih => simp [calls_of_attempts, ih]

theorem next_versions_calls_of_attempts (l : List (Version × CommitSuccess)) :
    next_versions (calls_of_attempts l : List (Call S)) = l.map Prod.fst := by
  induction l with
  | nil => rfl
  | cons a rest ih => simp [calls_of_attempts, next_versions, ih]

theorem commits_calls_of_attempts (l : List (Version × CommitSuccess)) :
    commits (calls_of_attempts l : List (Call S)) = l := by
  induction l with
  | nil => rfl
  | cons a rest ih => simp [calls_of_attempts, commits, ih]

theorem next_versions_append (cs₁ cs₂ : List (Call S)) :
    next_versions (cs₁ ++ cs₂) = next_versions cs₁ ++ next_versions cs₂ := by
  induction cs₁ with
  | nil => rfl
  | cons c rest ih => cases c <;> simp [next_versions, ih]

theorem ok_versions_rejected_then_ok (l : List (Version × CommitSuccess)) (v : Version)
    (h : ∀ a ∈ l, a.2 ≠ CommitSuccess.OK) :
    ok_versions (calls_of_attempts (l ++ [(v, CommitSuccess.OK)]) : List (Call S)) = [v] := by
  have hf : l.filter (fun c => decide (c.2 = CommitSuccess.OK)) = [] := by
    rw [List.filter_eq_nil_iff]
    intro a ha
    simpa using h a ha
  simp [ok_versions, commits_calls_of_attempts, List.filter_append, hf]

/-! ## Runs of attempts -/

theorem attempts_length (A : Adaptor W B S) (X : TxOps W B) (pp : PrePrepare) (map tx : Nat)
    (n : Nat) (w : W) : (A.attempts X pp map tx n w).length = n := by
  induction n generalizing w with
  | zero => rfl
  | succ n ih => simp [Adaptor.attempts, ih]

theorem attempts_of_conflictsThenOK (A : Adaptor W B S) (X : TxOps W B) (pp : PrePrepare)
    (map tx : Nat) (k : Nat) (w : W) (h : A.ConflictsThenOK X pp map tx k w) :
    ∃ v, A.attempts X pp map tx (k + 1) w =
        A.attempts X pp map tx k w ++ [(v, CommitSuccess.OK)] ∧
      ∀ a ∈ A.attempts X pp map tx k w, a.2 ≠ CommitSuccess.OK := by
  induction k generalizing w with
  | zero =>
    refine ⟨(attempt A.T X pp map tx w).1, ?_, ?_⟩
    · simp [Adaptor.attempts, h.2]
    · simp [Adaptor.attempts]
  | succ k ih =>
    obtain ⟨_, hne, hrest⟩ := h
    obtain ⟨v, hv, hall⟩ := ih _ hrest
    refine ⟨v, ?_, ?_⟩
    · rw [Adaptor.attempts, hv]
      simp [Adaptor.attempts]
    · intro a ha
      simp only [Adaptor.attempts, List.mem_cons] at ha
      rcases ha with rfl | ha
      · exact hne
      · exact hall a ha

theorem commit_pre_prepare_of_conflictsThenOK (A : Adaptor W B S) (X : TxOps W B)
    (pp : PrePrepare) (map tx : Nat) (k : Nat) (w : W)
    (h : A.ConflictsThenOK X pp map tx k w) (fuel : Nat) (hf : k < fuel) :
    A.commit_pre_prepare X pp map tx fuel w =
      some (A.after_attempts X pp map tx (k + 1) w,
        calls_of_attempts (A.attempts X pp map tx (k + 1) w)) := by
  induction k generalizing w fuel with
  | zero =>
    obtain ⟨n, rfl⟩ : ∃ n, fuel = n + 1 := ⟨fuel - 1, by omega⟩
    rw [commit_pre_prepare_ok_step A X pp map tx n w h.1 h.2]
    simp [Adaptor.after_attempts, Adaptor.attempts, calls_of_attempts, h.2]
  | succ k ih =>
    obtain ⟨n, rfl⟩ : ∃ n, fuel = n + 1 := ⟨fuel - 1, by omega⟩
    obtain ⟨ha, hne, hrest⟩ := h
    rw [commit_pre_prepare_conflict_step A X pp map tx n w ha hne,
      ih _ hrest n (by omega)]
    simp [Adaptor.after_attempts, Adaptor.attempts, calls_of_attempts]

/-- The shape of the calls of a call that returned: some rejected attempts,
then one accepted attempt, and nothing after it. -/
theorem commit_pre_prepare_calls (A : Adaptor W B S) (X : TxOps W B) (pp : PrePrepare)
    (map tx : Nat) (fuel : Nat) (w w1 : W) (cs : List (Call S))
    (h : A.commit_pre_prepare X pp map tx fuel w = some (w1, cs)) :
    ∃ (l : List (Version × CommitSuccess)) (v : Version),
      cs = calls_of_attempts (l ++ [(v, CommitSuccess.OK)]) ∧
        ∀ a ∈ l, a.2 ≠ CommitSuccess.OK := by
  induction fuel generalizing w w1 cs with
  | zero => simp [Adaptor.commit_pre_prepare] at h
  | succ n ih =>
    cases hx : A.expired w with
    | true =>
      rw [commit_pre_prepare_expired_step A X pp map tx n w hx] at h
      exact ih w w1 cs h
    | false =>
      by_cases hok : (attempt A.T X pp map tx w).2.1 = CommitSuccess.OK
      · rw [commit_pre_prepare_ok_step A X pp map tx n w hx hok] at h
        simp only [Option.some.injEq, Prod.mk.injEq] at h
        refine ⟨[], (attempt A.T X pp map tx w).1, ?_, by simp⟩
        rw [← h.2]
        rfl
      · rw [commit_pre_prepare_conflict_step A X pp map tx n w hx hok] at h
        cases hr : A.commit_pre_prepare X pp map tx n (attempt A.T X pp map tx w).2.2 with
        | none => simp [hr] at h
        | some r =>
          obtain ⟨w2, cs2⟩ := r
          simp only [hr, Option.map_some', Option.some.injEq, Prod.mk.injEq] at h
          obtain ⟨l, v, hl, hall⟩ := ih _ w2 cs2 hr
          refine ⟨((attempt A.T X pp map tx w).1, (attempt A.T X pp map tx w).2.1) :: l, v,
            ?_, ?_⟩
          · rw [← h.2, hl]
            rfl
          · intro a ha
            simp only [List.mem_cons] at ha
            rcases ha with rfl | ha
            · exact hok
            · exact hall a ha

/-! ## Delivery of several batches -/

theorem deliver_calls (A : Adaptor W B S) (X : TxOps W B) (map tx : Nat) (fuel : Nat)
    (bs : List PrePrepare) (w w1 : W) (trs : List (List (Call S)))
    (h : A.deliver X map tx fuel bs w = some (w1, trs)) :
    trs.length = bs.length ∧
      ∀ cs ∈ trs, ∃ (l : List (Version × CommitSuccess)) (v : Version),
        cs = calls_of_attempts (l ++ [(v, CommitSuccess.OK)]) ∧
          ∀ a ∈ l, a.2 ≠ CommitSuccess.OK := by
  induction bs generalizing w w1 trs with
  | nil =>
    simp only [Adaptor.deliver, Option.some.injEq, Prod.mk.injEq] at h
    simp [← h.2]
  | cons pp rest ih =>
    rw [Adaptor.deliver] at h
    cases hc : A.commit_pre_prepare X pp map tx fuel w with
    | none => simp [hc] at h
    | some r =>
      obtain ⟨w2, cs⟩ := r
      cases hd : A.deliver X map tx fuel rest w2 with
      | none => simp [hc, hd] at h
      | some r2 =>
        obtain ⟨w3, trs2⟩ := r2
        simp only [hc, hd, Option.map_some', Option.some.injEq, Prod.mk.injEq] at h
        obtain ⟨hlen, hall⟩ := ih w2 w3 trs2 hd
        rw [← h.2]
        refine ⟨by simp [hlen], ?_⟩
        intro cs1 hcs1
        simp only [List.mem_cons] at hcs1
        rcases hcs1 with rfl | hcs1
        · exact commit_pre_prepare_calls A X pp map tx fuel w w2 cs1 hc
        · exact hall cs1 hcs1

theorem deliver_of_allSettle (A : Adaptor W B S) (X : TxOps W B) (map tx : Nat)
    (bs : List (PrePrepare × Nat)) (w : W) (h : A.AllSettle X map tx bs w) (fuel : Nat)
    (hf : ∀ b ∈ bs, b.2 < fuel) :
    ∃ (w1 : W) (trs : List (List (Call S))),
      A.deliver X map tx fuel (bs.map Prod.fst) w = some (w1, trs) := by
  induction bs generalizing w with
  | nil => exact ⟨w, [], rfl⟩
  | cons b rest ih =>
    obtain ⟨pp, k⟩ := b
    obtain ⟨hk, hrest⟩ := h
    have hfk : k < fuel := hf (pp, k) (by simp)
    obtain ⟨w1, trs, hd⟩ := ih _ hrest (fun b hb => hf b (by simp [hb]))
    refine ⟨w1, calls_of_attempts (A.attempts X pp map tx (k + 1) w) :: trs, ?_⟩
    simp [Adaptor.deliver, commit_pre_prepare_of_conflictsThenOK A X pp map tx k w hk fuel hfk,
      hd]

/-! ## The claims about `commit_pre_prepare` -/

/-- C1: when the weak pointer has expired, a pass through the loop of
`commit_pre_prepare` calls nothing and changes nothing, but it does not leave
the loop either: the call has not returned after any number of passes.  The
same happens when the store disappears after a rejected attempt. -/
theorem commit_pre_prepare_never_returns_when_expired (A : Adaptor W B S) (X : TxOps W B)
    (pp : PrePrepare) (map tx : Nat) (w : W) (h : A.expired w = true) :
    A.iteration X pp map tx w = (false, w, []) ∧
      (∀ fuel, A.commit_pre_prepare X pp map tx fuel w = none) ∧
      (∀ (w0 : W) (fuel : Nat), A.expired w0 = false →
        (attempt A.T X pp map tx w0).2.1 ≠ CommitSuccess.OK →
        (attempt A.T X pp map tx w0).2.2 = w →
        A.commit_pre_prepare X pp map tx fuel w0 = none) := by
  refine ⟨iteration_of_expired A X pp map tx w h,
    commit_pre_prepare_expired A X pp map tx w h, ?_⟩
  intro w0 fuel h0 hne hw
  cases fuel with
  | zero => rfl
  | succ n =>
    rw [commit_pre_prepare_conflict_step A X pp map tx n w0 h0 hne, hw,
      commit_pre_prepare_expired A X pp map tx w h n]
    rfl

/-- C2: when the batches of a list are delivered one after another to a store
that exists throughout and turns down any number of attempts for each batch
before it accepts one, every call returns, and among the commits made for each
batch exactly one reported OK. -/
theorem deliver_exactly_once (A : Adaptor W B S) (X : TxOps W B) (map tx : Nat)
    (bs : List (PrePrepare × Nat)) (w : W) (h : A.AllSettle X map tx bs w) (fuel : Nat)
    (hf : ∀ b ∈ bs, b.2 < fuel) :
    ∃ (w1 : W) (trs : List (List (Call S))),
      A.deliver X map tx fuel (bs.map Prod.fst) w = some (w1, trs) ∧
        trs.length = bs.length ∧
        ∀ cs ∈ trs,
          ((commits cs).filter (fun c => decide (c.2 = CommitSuccess.OK))).length = 1 := by
  obtain ⟨w1, trs, hd⟩ := deliver_of_allSettle A X map tx bs w h fuel hf
  obtain ⟨hlen, hall⟩ := deliver_calls A X map tx fuel _ w w1 trs hd
  refine ⟨w1, trs, hd, by simpa using hlen, ?_⟩
  intro cs hcs
  obtain ⟨l, v, rfl, hl⟩ := hall cs hcs
  have hv := ok_versions_rejected_then_ok (S := S) l v hl
  have := congrArg List.length hv
  simpa [ok_versions] using this

/-- C3: when the store's commit reports a non-OK outcome on the first `k`
attempts and OK on attempt `k + 1`, `commit_pre_prepare` returns after exactly
`k + 1` attempts: its calls are `k` rejected attempts and one accepted attempt,
each made of a `next_version` call followed by a `commit` call with the version
that `next_version` just returned; there are `k + 1` calls of each kind. -/
theorem commit_pre_prepare_retries (A : Adaptor W B S) (X : TxOps W B) (pp : PrePrepare)
    (map tx : Nat) (k : Nat) (w : W) (h : A.ConflictsThenOK X pp map tx k w) (fuel : Nat)
    (hf : k < fuel) :
    ∃ (cs : List (Call S)) (l : List (Version × CommitSuccess)) (v : Version),
      A.commit_pre_prepare X pp map tx fuel w =
          some (A.after_attempts X pp map tx (k + 1) w, cs) ∧
        cs = calls_of_attempts (l ++ [(v, CommitSuccess.OK)]) ∧
        l ++ [(v, CommitSuccess.OK)] = A.attempts X pp map tx (k + 1) w ∧
        l.length = k ∧
        (∀ a ∈ l, a.2 ≠ CommitSuccess.OK) ∧
        (next_versions cs).length = k + 1 ∧
        (commits cs).length = k + 1 ∧
        (commits cs).map Prod.fst = next_versions cs := by
  obtain ⟨v, hv, hall⟩ := attempts_of_conflictsThenOK A X pp map tx k w h
  refine ⟨calls_of_attempts (A.attempts X pp map tx (k + 1) w),
    A.attempts X pp map tx k w, v,
    commit_pre_prepare_of_conflictsThenOK A X pp map tx k w h fuel hf, by rw [hv], hv.symm,
    attempts_length A X pp map tx k w, hall, ?_, ?_, ?_⟩
  · rw [next_versions_calls_of_attempts, List.length_map, attempts_length]
  · rw [commits_calls_of_attempts, attempts_length]
  · rw [commits_calls_of_attempts, next_versions_calls_of_attempts]

/-- C4: an attempt on the existing store whose commit returns OK is the last
thing `commit_pre_prepare` does: the call returns with the calls of that
attempt only.  Conversely the calls of a call that returned end with an
attempt whose commit returned OK, and no commit before it returned OK. -/
theorem commit_pre_prepare_ok_ends_loop (A : Adaptor W B S) (X : TxOps W B) (pp : PrePrepare)
    (map tx : Nat) (w : W) :
    (∀ fuel : Nat, A.expired w = false →
      (attempt A.T X pp map tx w).2.1 = CommitSuccess.OK →
      A.commit_pre_prepare X pp map tx (fuel + 1) w =
        some ((attempt A.T X pp map tx w).2.2,
          [Call.next_version (attempt A.T X pp map tx w).1,
            Call.commit (attempt A.T X pp map tx w).1 false CommitSuccess.OK])) ∧
      (∀ (fuel : Nat) (w1 : W) (cs : List (Call S)),
        A.commit_pre_prepare X pp map tx fuel w = some (w1, cs) →
        ∃ (l : List (Version × CommitSuccess)) (v : Version),
          cs = calls_of_attempts l ++
              [Call.next_version v, Call.commit v false CommitSuccess.OK] ∧
            commits cs = l ++ [(v, CommitSuccess.OK)] ∧
            ∀ a ∈ l, a.2 ≠ CommitSuccess.OK) := by
  refine ⟨fun fuel h hok => commit_pre_prepare_ok_step A X pp map tx fuel w h hok, ?_⟩
  intro fuel w1 cs h
  obtain ⟨l, v, hcs, hall⟩ := commit_pre_prepare_calls A X pp map tx fuel w w1 cs h
  refine ⟨l, v, ?_, ?_, hall⟩
  · rw [hcs, calls_of_attempts_append]
    rfl
  · rw [hcs, commits_calls_of_attempts]

/-- C1, at a destroyed store and at a store destroyed after one rejected
attempt: a thousand passes do not make the call return. -/
theorem commit_pre_prepare_never_returns_witness :
    KV.adaptor.expired { KV.empty with alive := false } = true ∧
      KV.adaptor.commit_pre_prepare KV.tx ⟨1, [7]⟩ 0 0 1000 { KV.empty with alive := false }
        = none ∧
      KV.adaptor.commit_pre_prepare KV.tx ⟨2, [7]⟩ 0 0 1000
        { KV.empty with version := 1, held := 1, teardown := some 0 } = none :=
  ⟨by decide,
    (commit_pre_prepare_never_returns_when_expired KV.adaptor KV.tx ⟨1, [7]⟩ 0 0
      { KV.empty with alive := false } (by decide)).2.1 1000,
    (commit_pre_prepare_never_returns_when_expired KV.adaptor KV.tx ⟨2, [7]⟩ 0 0
      { KV.empty with alive := false, version := 1 } (by decide)).2.2
      { KV.empty with version := 1, held := 1, teardown := some 0 } 1000
      (by decide) (by decide) (by decide)⟩

/-- C2, for two batches of which the first meets one conflict. -/
theorem deliver_exactly_once_witness :
    ∃ (w1 : KV) (trs : List (List (Call DeserialiseSuccess))),
      KV.adaptor.deliver KV.tx 0 0 2 [⟨1, [7]⟩, ⟨2, [8]⟩] { KV.empty with held := 1 }
          = some (w1, trs) ∧
        trs.length = 2 ∧
        ∀ cs ∈ trs,
          ((commits cs).filter (fun c => decide (c.2 = CommitSuccess.OK))).length = 1 :=
  deliver_exactly_once KV.adaptor KV.tx 0 0 [(⟨1, [7]⟩, 1), (⟨2, [8]⟩, 0)]
    { KV.empty with held := 1 }
    ⟨⟨by decide, by decide, by decide, by decide⟩, ⟨by decide, by decide⟩, trivial⟩ 2
    (by decide)

/-- C3, for a batch that meets three conflicts at version 1. -/
theorem commit_pre_prepare_retries_witness :
    ∃ (cs : List (Call DeserialiseSuccess)) (l : List (Version × CommitSuccess)) (v : Version),
      KV.adaptor.commit_pre_prepare KV.tx ⟨2, [7]⟩ 0 0 4 { KV.empty with version := 1, held := 3 }
          = some (KV.adaptor.after_attempts KV.tx ⟨2, [7]⟩ 0 0 4
              { KV.empty with version := 1, held := 3 }, cs) ∧
        cs = calls_of_attempts (l ++ [(v, CommitSuccess.OK)]) ∧
        l ++ [(v, CommitSuccess.OK)] = KV.adaptor.attempts KV.tx ⟨2, [7]⟩ 0 0 4
          { KV.empty with version := 1, held := 3 } ∧
        l.length = 3 ∧
        (∀ a ∈ l, a.2 ≠ CommitSuccess.OK) ∧
        (next_versions cs).length = 4 ∧
        (commits cs).length = 4 ∧
        (commits cs).map Prod.fst = next_versions cs :=
  commit_pre_prepare_retries KV.adaptor KV.tx ⟨2, [7]⟩ 0 0 3
    { KV.empty with version := 1, held := 3 }
    ⟨by decide, by decide, by decide, by decide, by decide, by decide, by decide, by decide⟩
    4 (by decide)

/-- C4, at the empty store and a batch with sequence number 1. -/
theorem commit_pre_prepare_ok_ends_loop_witness :
    KV.adaptor.commit_pre_prepare KV.tx ⟨1, [7]⟩ 0 0 1 KV.empty =
        some ({ KV.empty with version := 1, pre_prepares := [(0, ⟨1, [7]⟩)] },
          [Call.next_version 1, Call.commit 1 false CommitSuccess.OK]) ∧
      ∃ (l : List (Version × CommitSuccess)) (v : Version),
        [Call.next_version 1, Call.commit 1 false CommitSuccess.CONFLICT,
          Call.next_version 1, Call.commit 1 false CommitSuccess.OK] =
            (calls_of_attempts l ++
              [Call.next_version v, Call.commit v false CommitSuccess.OK] :
                List (Call DeserialiseSuccess)) ∧
          commits ([Call.next_version 1, Call.commit 1 false CommitSuccess.CONFLICT,
            Call.next_version 1, Call.commit 1 false CommitSuccess.OK] :
              List (Call DeserialiseSuccess)) = l ++ [(v, CommitSuccess.OK)] ∧
          ∀ a ∈ l, a.2 ≠ CommitSuccess.OK :=
  ⟨(commit_pre_prepare_ok_ends_loop KV.adaptor KV.tx ⟨1, [7]⟩ 0 0 KV.empty).1 0
      (by decide) (by decide),
    (commit_pre_prepare_ok_ends_loop KV.adaptor KV.tx ⟨1, [7]⟩ 0 0
      { KV.empty with held := 1 }).2 2
      ({ KV.empty with version := 1, pre_prepares := [(0, ⟨1, [7]⟩)] } : KV)
      [Call.next_version 1, Call.commit 1 false CommitSuccess.CONFLICT,
        Call.next_version 1, Call.commit 1 false CommitSuccess.OK] (by decide)⟩

/-! ## The forwarding methods -/

/-- C5: `current_version` on an existing store makes one call, the store's
`current_version`, and returns its result, leaving the state as that call left
it; on a destroyed store it returns `NoVersion`, calls nothing and leaves the
state as it was.  So when the store's own `current_version` only reads, the
state is never changed. -/
theorem current_version_forwards (A : Adaptor W B S) (NoVersion : Version) (w : W) :
    (A.expired w = false →
      A.current_version NoVersion w =
        ((A.T.current_version w).1, (A.T.current_version w).2,
          [Call.current_version (A.T.current_version w).1])) ∧
      (A.expired w = true → A.current_version NoVersion w = (NoVersion, w, [])) ∧
      ((A.T.current_version w).2 = w → (A.current_version NoVersion w).2.1 = w) := by
  refine ⟨?_, ?_, ?_⟩
  · intro h
    simp [Adaptor.current_version, Adaptor.lock, h]
  · intro h
    simp [Adaptor.current_version, Adaptor.lock, h]
  · intro h
    cases hx : A.expired w <;> simp [Adaptor.current_version, Adaptor.lock, hx, h]

/-- C5, at the store at version 5, alive and destroyed. -/
theorem current_version_forwards_witness :
    KV.adaptor.current_version KV.NoVersion { KV.empty with version := 5 } =
        (5, { KV.empty with version := 5 }, [Call.current_version 5]) ∧
      KV.adaptor.current_version KV.NoVersion { KV.empty with version := 5, alive := false } =
        (KV.NoVersion, { KV.empty with version := 5, alive := false }, []) ∧
      (KV.adaptor.current_version KV.NoVersion { KV.empty with version := 5 }).2.1 =
        { KV.empty with version := 5 } :=
  ⟨(current_version_forwards KV.adaptor KV.NoVersion { KV.empty with version := 5 }).1
      (by decide),
    (current_version_forwards KV.adaptor KV.NoVersion
      { KV.empty with version := 5, alive := false }).2.1 (by decide),
    (current_version_forwards KV.adaptor KV.NoVersion { KV.empty with version := 5 }).2.2
      (by decide)⟩

/-- C6: `deserialise_views` on an existing store makes one call, the store's
`deserialise_views` with the same five arguments, and returns its result,
whatever it is; on a destroyed store it returns `FAILED`, calls nothing and
leaves the state as it was. -/
theorem deserialise_views_forwards (A : Adaptor W B S) (FAILED : S) (data : List Nat)
    (public_only commit : Bool) (term tx : Option Nat) (w : W) :
    (A.expired w = false →
      A.deserialise_views FAILED data public_only commit term tx w =
        ((A.T.deserialise_views data public_only commit term tx w).1,
          (A.T.deserialise_views data public_only commit term tx w).2,
          [Call.deserialise_views data public_only commit term tx
            (A.T.deserialise_views data public_only commit term tx w).1])) ∧
      (A.expired w = true →
        A.deserialise_views FAILED data public_only commit term tx w = (FAILED, w, [])) := by
  refine ⟨?_, ?_⟩
  · intro h
    simp [Adaptor.deserialise_views, Adaptor.lock, h]
  · intro h
    simp [Adaptor.deserialise_views, Adaptor.lock, h]

/-- C6, at the empty store: a payload that passes, a payload the store turns
down, and the destroyed store. -/
theorem deserialise_views_forwards_witness :
    KV.adaptor.deserialise_views DeserialiseSuccess.FAILED [1, 2] false true none (some 3)
        KV.empty =
        (DeserialiseSuccess.PASS, { KV.empty with version := 1 },
          [Call.deserialise_views [1, 2] false true none (some 3) DeserialiseSuccess.PASS]) ∧
      KV.adaptor.deserialise_views DeserialiseSuccess.FAILED [] true false (some 4) none
        KV.empty =
        (DeserialiseSuccess.FAILED, KV.empty,
          [Call.deserialise_views [] true false (some 4) none DeserialiseSuccess.FAILED]) ∧
      KV.adaptor.deserialise_views DeserialiseSuccess.FAILED [1, 2] false true none (some 3)
        { KV.empty with alive := false } =
        (DeserialiseSuccess.FAILED, { KV.empty with alive := false }, []) :=
  ⟨(deserialise_views_forwards KV.adaptor DeserialiseSuccess.FAILED [1, 2] false true none
      (some 3) KV.empty).1 (by decide),
    (deserialise_views_forwards KV.adaptor DeserialiseSuccess.FAILED [] true false (some 4)
      none KV.empty).1 (by decide),
    (deserialise_views_forwards KV.adaptor DeserialiseSuccess.FAILED [1, 2] false true none
      (some 3) { KV.empty with alive := false }).2 (by decide)⟩

/-- C7: `compact v` on an existing store makes one call, the store's `compact`
with the same `v`, and leaves the state as that call left it; on a destroyed
store it calls nothing and leaves the state as it was. -/
theorem compact_forwards (A : Adaptor W B S) (v : Index) (w : W) :
    (A.expired w = false → A.compact v w = (A.T.compact v w, [Call.compact v])) ∧
      (A.expired w = true → A.compact v w = (w, [])) := by
  refine ⟨?_, ?_⟩
  · intro h
    simp [Adaptor.compact, Adaptor.lock, h]
  · intro h
    simp [Adaptor.compact, Adaptor.lock, h]

/-- C7, at the empty store, alive and destroyed. -/
theorem compact_forwards_witness :
    KV.adaptor.compact 9 KV.empty = ({ KV.empty with compacted := 9 }, [Call.compact 9]) ∧
      KV.adaptor.compact 9 { KV.empty with alive := false } =
        ({ KV.empty with alive := false }, []) :=
  ⟨(compact_forwards KV.adaptor 9 KV.empty).1 (by decide),
    (compact_forwards KV.adaptor 9 { KV.empty with alive := false }).2 (by decide)⟩

/-! ## Versions of successive batches -/

theorem next_versions_rejected_then_ok (l : List (Version × CommitSuccess)) (v : Version) :
    next_versions (calls_of_attempts (l ++ [(v, CommitSuccess.OK)]) : List (Call S)) =
      l.map Prod.fst ++ [v] := by
  rw [next_versions_calls_of_attempts]
  simp

theorem committed_versions_sublist (trs : List (List (Call S)))
    (h : ∀ cs ∈ trs, ∃ (l : List (Version × CommitSuccess)) (v : Version),
      cs = calls_of_attempts (l ++ [(v, CommitSuccess.OK)]) ∧
        ∀ a ∈ l, a.2 ≠ CommitSuccess.OK) :
    ∃ vs : List Version, vs.length = trs.length ∧
      trs.map ok_versions = vs.map (fun v => [v]) ∧
      List.Sublist vs (all_next_versions trs) := by
  induction trs with
  | nil => exact ⟨[], rfl, rfl, List.Sublist.slnil⟩
  | cons cs rest ih =>
    obtain ⟨vs, hlen, hmap, hsub⟩ := ih (fun c hc => h c (by simp [hc]))
    obtain ⟨l, v, hcs, hl⟩ := h cs (by simp)
    refine ⟨v :: vs, by simp [hlen], ?_, ?_⟩
    · simp [hmap, hcs, ok_versions_rejected_then_ok l v hl]
    · rw [all_next_versions, hcs, next_versions_rejected_then_ok]
      have h1 : List.Sublist [v] (l.map Prod.fst ++ [v]) := List.sublist_append_right _ _
      exact List.Sublist.append h1 hsub

/-- C8: when the batches of a list are delivered one after another to a store
that exists throughout, turns down any number of attempts for each batch before
it accepts one, and whose `next_version` returns strictly increasing versions
during the delivery, then every batch has one version at which its commit
reported OK, and these versions are strictly increasing in the order of the
batches. -/
theorem deliver_versions_increase (A : Adaptor W B S) (X : TxOps W B) (map tx : Nat)
    (bs : List (PrePrepare × Nat)) (w : W) (h : A.AllSettle X map tx bs w) (fuel : Nat)
    (hf : ∀ b ∈ bs, b.2 < fuel)
    (hinc : ∀ (w1 : W) (trs : List (List (Call S))),
      A.deliver X map tx fuel (bs.map Prod.fst) w = some (w1, trs) →
        (all_next_versions trs).Pairwise (fun a b => a < b)) :
    ∃ (w1 : W) (trs : List (List (Call S))) (vs : List Version),
      A.deliver X map tx fuel (bs.map Prod.fst) w = some (w1, trs) ∧
        vs.length = bs.length ∧
        trs.map ok_versions = vs.map (fun v => [v]) ∧
        vs.Pairwise (fun a b => a < b) := by
  obtain ⟨w1, trs, hd⟩ := deliver_of_allSettle A X map tx bs w h fuel hf
  obtain ⟨hlen, hall⟩ := deliver_calls A X map tx fuel _ w w1 trs hd
  obtain ⟨vs, hvlen, hmap, hsub⟩ := committed_versions_sublist trs hall
  refine ⟨w1, trs, vs, hd, ?_, hmap, (hinc w1 trs hd).sublist hsub⟩
  rw [hvlen, hlen, List.length_map]

/-- C8, for three batches delivered to the empty store without contention, and
for two batches delivered to a store that hands out a fresh version at every
call and turns down the first two attempts. -/
theorem deliver_versions_increase_witness :
    (∃ (w1 : KV) (trs : List (List (Call DeserialiseSuccess))) (vs : List Version),
      KV.adaptor.deliver KV.tx 0 0 1 [⟨1, [7]⟩, ⟨2, [8]⟩, ⟨3, [9]⟩] KV.empty = some (w1, trs) ∧
        vs.length = 3 ∧
        trs.map ok_versions = vs.map (fun v => [v]) ∧
        vs.Pairwise (fun a b => a < b)) ∧
      ∃ (w1 : Version × Nat) (trs : List (List (Call Unit))) (vs : List Version),
        Counting.adaptor.deliver Counting.tx 0 0 3 [⟨1, [7]⟩, ⟨2, [8]⟩] (0, 2) = some (w1, trs) ∧
          vs.length = 2 ∧
          trs.map ok_versions = vs.map (fun v => [v]) ∧
          vs.Pairwise (fun a b => a < b) :=
  ⟨deliver_versions_increase KV.adaptor KV.tx 0 0
    [(⟨1, [7]⟩, 0), (⟨2, [8]⟩, 0), (⟨3, [9]⟩, 0)] KV.empty
    ⟨⟨by decide, by decide⟩, ⟨by decide, by decide⟩, ⟨by decide, by decide⟩, trivial⟩ 1
    (by decide)
    (by
      intro w1 trs hd
      have hc : KV.adaptor.deliver KV.tx 0 0 1 [⟨1, [7]⟩, ⟨2, [8]⟩, ⟨3, [9]⟩] KV.empty =
          some ({ KV.empty with
                    version := 3
                    pre_prepares := [(0, ⟨3, [9]⟩), (0, ⟨2, [8]⟩), (0, ⟨1, [7]⟩)] },
            [[Call.next_version 1, Call.commit 1 false CommitSuccess.OK],
              [Call.next_version 2, Call.commit 2 false CommitSuccess.OK],
              [Call.next_version 3, Call.commit 3 false CommitSuccess.OK]]) := by decide
      have he : some (w1, trs) = some _ := hd.symm.trans hc
      simp only [Option.some.injEq, Prod.mk.injEq] at he
      rw [he.2]
      decide),
   deliver_versions_increase Counting.adaptor Counting.tx 0 0
    [(⟨1, [7]⟩, 2), (⟨2, [8]⟩, 0)] (0, 2)
    ⟨⟨by decide, by decide, by decide, by decide, by decide, by decide⟩,
      ⟨by decide, by decide⟩, trivial⟩ 3
    (by decide)
    (by
      intro w1 trs hd
      have hc : Counting.adaptor.deliver Counting.tx 0 0 3 [⟨1, [7]⟩, ⟨2, [8]⟩] (0, 2) =
          some ((4, 0),
            [[Call.next_version 1, Call.commit 1 false CommitSuccess.CONFLICT,
                Call.next_version 2, Call.commit 2 false CommitSuccess.CONFLICT,
                Call.next_version 3, Call.commit 3 false CommitSuccess.OK],
              [Call.next_version 4, Call.commit 4 false CommitSuccess.OK]]) := by decide
      have he : some (w1, trs) = some _ := hd.symm.trans hc
      simp only [Option.some.injEq, Prod.mk.injEq] at he
      rw [he.2]
      decide)⟩

/-! ## The store that follows the spec -/

theorem kv_attempt_free (pp : PrePrepare) (map tx : Nat) (w : KV) (hh : w.held = 0)
    (ht : w.teardown = none) :
    attempt KV.store KV.tx pp map tx w =
      (w.version + 1, CommitSuccess.OK,
        { w with version := w.version + 1, pre_prepares := (0, pp) :: w.writes ++ w.pre_prepares,
                 reserved := none, writes := [] }) := by
  simp [attempt, commit_closure, KV.store, KV.tx, hh, ht]

theorem kv_attempt_held (pp : PrePrepare) (map tx : Nat) (w : KV) (k : Nat)
    (hh : w.held = k + 1) (ht : w.teardown = none) :
    attempt KV.store KV.tx pp map tx w =
      (w.version + 1, CommitSuccess.CONFLICT,
        { w with held := k, reserved := none, writes := [] }) := by
  simp [attempt, commit_closure, KV.store, KV.tx, hh, ht]

/-- On the store that follows the spec, a batch that waits for `k` releases of
the slot is committed at the next version, after `k + 1` attempts. -/
theorem kv_commit_pre_prepare (pp : PrePrepare) (map tx : Nat) (k : Nat) (w : KV)
    (ha : w.alive = true) (ht : w.teardown = none) (hw : w.writes = []) (hh : w.held = k)
    (fuel : Nat) (hf : k < fuel) :
    KV.adaptor.commit_pre_prepare KV.tx pp map tx fuel w =
      some ({ w with version := w.version + 1, held := 0,
                     pre_prepares := (0, pp) :: w.pre_prepares, reserved := none, writes := [] },
        calls_of_attempts
          (List.replicate k (w.version + 1, CommitSuccess.CONFLICT) ++
            [(w.version + 1, CommitSuccess.OK)])) := by
  have hx : ∀ u : KV, u.alive = true → KV.adaptor.expired u = false := by
    intro u hu
    simp [KV.adaptor, hu]
  induction k generalizing w fuel with
  | zero =>
    obtain ⟨n, rfl⟩ : ∃ n, fuel = n + 1 := ⟨fuel - 1, by omega⟩
    have hat := kv_attempt_free pp map tx w hh ht
    have hat2 : attempt KV.adaptor.T KV.tx pp map tx w = _ := hat
    rw [commit_pre_prepare_ok_step KV.adaptor KV.tx pp map tx n w (hx w ha) (by rw [hat2]),
      hat2]
    simp [calls_of_attempts, hw, hh]
  | succ k ih =>
    obtain ⟨n, rfl⟩ : ∃ n, fuel = n + 1 := ⟨fuel - 1, by omega⟩
    have hat : attempt KV.adaptor.T KV.tx pp map tx w = _ := kv_attempt_held pp map tx w k hh ht
    rw [commit_pre_prepare_conflict_step KV.adaptor KV.tx pp map tx n w (hx w ha)
      (by rw [hat]; simp), hat]
    rw [ih { w with held := k, reserved := none, writes := [] } ha ht rfl rfl n (by omega)]
    simp [calls_of_attempts, List.replicate_succ]

/-- C9: on the empty store at version 0, without contention,
`commit_pre_prepare` of a batch with sequence number 1 returns after one
attempt; then `current_version` is 1 and the pre-prepares map holds the batch,
whose sequence number is 1. -/
theorem first_commit_lands_at_version_one (contents : List Nat) (map tx fuel : Nat) :
    ∃ w1 : KV,
      KV.adaptor.commit_pre_prepare KV.tx ⟨1, contents⟩ map tx (fuel + 1) KV.empty =
          some (w1, [Call.next_version 1, Call.commit 1 false CommitSuccess.OK]) ∧
        (KV.adaptor.current_version KV.NoVersion w1).1 = 1 ∧
        w1.get 0 = some ⟨1, contents⟩ ∧
        (w1.get 0).map PrePrepare.seqno = some 1 := by
  refine ⟨_, kv_commit_pre_prepare ⟨1, contents⟩ map tx 0 KV.empty rfl rfl rfl rfl (fuel + 1)
    (by omega), ?_, ?_, ?_⟩
  · simp [Adaptor.current_version, Adaptor.lock, KV.adaptor, KV.store, KV.empty]
  · simp [KV.get, List.lookup]
  · simp [KV.get, List.lookup]

/-- C10: on the store that follows the spec, a batch whose first `k` attempts
are rejected because a local transaction holds the slot, and whose next attempt
succeeds, makes `k + 1` calls of `next_version` and is committed at the version
after the current one; the store version has then advanced by exactly one and
the map holds the batch. -/
theorem contention_does_not_skip_versions (pp : PrePrepare) (map tx : Nat) (k : Nat) (w : KV)
    (ha : w.alive = true) (ht : w.teardown = none) (hw : w.writes = []) (hh : w.held = k)
    (fuel : Nat) (hf : k < fuel) :
    ∃ (w1 : KV) (cs : List (Call DeserialiseSuccess)),
      KV.adaptor.commit_pre_prepare KV.tx pp map tx fuel w = some (w1, cs) ∧
        (next_versions cs).length = k + 1 ∧
        ((commits cs).filter (fun c => decide (c.2 ≠ CommitSuccess.OK))).length = k ∧
        ok_versions cs = [w.version + 1] ∧
        (KV.adaptor.current_version KV.NoVersion w1).1 = w.version + 1 ∧
        w1.get 0 = some pp := by
  refine ⟨_, _, kv_commit_pre_prepare pp map tx k w ha ht hw hh fuel hf, ?_, ?_, ?_, ?_, ?_⟩
  · rw [next_versions_calls_of_attempts]
    simp
  · rw [commits_calls_of_attempts]
    simp [List.filter_append, List.filter_replicate]
  · exact ok_versions_rejected_then_ok _ _ (by
      intro a h
      rw [List.eq_of_mem_replicate h]
      simp)
  · simp [Adaptor.current_version, Adaptor.lock, KV.adaptor, KV.store, ha]
  · simp [KV.get, List.lookup]

/-- C10, with the store at version 1 and the slot of version 2 held during two
attempts: the batch with sequence number 2 lands at version 2. -/
theorem contention_does_not_skip_versions_witness :
    ∃ (w1 : KV) (cs : List (Call DeserialiseSuccess)),
      KV.adaptor.commit_pre_prepare KV.tx ⟨2, [8]⟩ 0 0 3
          { KV.empty with version := 1, held := 2, pre_prepares := [(0, ⟨1, [7]⟩)] }
          = some (w1, cs) ∧
        (next_versions cs).length = 2 + 1 ∧
        ((commits cs).filter (fun c => decide (c.2 ≠ CommitSuccess.OK))).length = 2 ∧
        ok_versions cs = [1 + 1] ∧
        (KV.adaptor.current_version KV.NoVersion w1).1 = 1 + 1 ∧
        w1.get 0 = some ⟨2, [8]⟩ :=
  contention_does_not_skip_versions ⟨2, [8]⟩ 0 0 2
    { KV.empty with version := 1, held := 2, pre_prepares := [(0, ⟨1, [7]⟩)] }
    (by decide) (by decide) (by decide) (by decide) 3 (by decide)

end pbft

namespace pbft

/-! ## The wire messages -/

theorem bytes64_length (o : ByteOrder) (x : Nat) : (bytes64 o x).length = 8 := by
  cases o <;> simp [bytes64, bytes64_le]

theorem read64_bytes64 (o : ByteOrder) (x : Nat) (h : x < 2 ^ 64) (rest : List Nat) :
    read64 o (bytes64 o x ++ rest) = x := by
  cases o <;> simp [read64, bytes64, bytes64_le, read_le] <;> omega

theorem header_image_length (o : ByteOrder) (h : PbftHeader) : (h.image o).length = 16 := by
  simp [PbftHeader.image, bytes64_length]

theorem header_read_image (o : ByteOrder) (h : PbftHeader) (hf : h.fits) (rest : List Nat) :
    PbftHeader.read o (h.image o ++ rest) = some h := by
  obtain ⟨msg, from_node⟩ := h
  obtain ⟨h1, h2⟩ := hf
  have hd : ∀ l : List Nat, (bytes64 o msg ++ l).drop 8 = l := by
    intro l
    rw [List.drop_left' (bytes64_length o msg)]
  simp only [PbftHeader.read, PbftHeader.image, List.append_assoc, List.length_append,
    bytes64_length, hd, read64_bytes64 o msg h1, read64_bytes64 o from_node h2]
  simp
  omega

theorem append_entries_read_image (o : ByteOrder) (a : AppendEntries) (hf : a.fits)
    (rest : List Nat) : AppendEntries.read o (a.image o ++ rest) = some a := by
  obtain ⟨⟨msg, from_node⟩, idx, prev_idx⟩ := a
  obtain ⟨⟨h1, h2⟩, h3, h4⟩ := hf
  have hd8 : ∀ l : List Nat, (bytes64 o msg ++ l).drop 8 = l := fun l => by
    rw [List.drop_left' (bytes64_length o msg)]
  have hd16 : ∀ l : List Nat, (bytes64 o msg ++ (bytes64 o from_node ++ l)).drop 16 = l :=
    fun l => by
      rw [← List.append_assoc, List.drop_left' (by simp [bytes64_length])]
  have hd24 : ∀ l : List Nat,
      (bytes64 o msg ++ (bytes64 o from_node ++ (bytes64 o idx ++ l))).drop 24 = l :=
    fun l => by
      rw [← List.append_assoc, ← List.append_assoc, List.drop_left' (by simp [bytes64_length])]
  simp only [AppendEntries.read, AppendEntries.image, PbftHeader.image, List.append_assoc,
    List.length_append, bytes64_length, hd8, hd16, hd24, read64_bytes64 o msg h1,
    read64_bytes64 o from_node h2, read64_bytes64 o idx h3, read64_bytes64 o prev_idx h4]
  simp
  omega

theorem status_message_read_image (o : ByteOrder) (m : StatusMessage) (hf : m.fits)
    (rest : List Nat) : StatusMessage.read o (m.image o ++ rest) = some m := by
  obtain ⟨⟨msg, from_node⟩, idx⟩ := m
  obtain ⟨⟨h1, h2⟩, h3⟩ := hf
  have hd8 : ∀ l : List Nat, (bytes64 o msg ++ l).drop 8 = l := fun l => by
    rw [List.drop_left' (bytes64_length o msg)]
  have hd16 : ∀ l : List Nat, (bytes64 o msg ++ (bytes64 o from_node ++ l)).drop 16 = l :=
    fun l => by
      rw [← List.append_assoc, List.drop_left' (by simp [bytes64_length])]
  simp only [StatusMessage.read, StatusMessage.image, PbftHeader.image, List.append_assoc,
    List.length_append, bytes64_length, hd8, hd16, read64_bytes64 o msg h1,
    read64_bytes64 o from_node h2, read64_bytes64 o idx h3]
  simp
  omega

/-- C11: for either byte order, reading back the byte image of a header, of a
log-replication message or of a status message whose fields are 64-bit values
gives the message itself, field by field. -/
theorem image_read_round_trip (o : ByteOrder) :
    (∀ h : PbftHeader, h.fits → PbftHeader.read o (h.image o) = some h) ∧
      (∀ a : AppendEntries, a.fits → AppendEntries.read o (a.image o) = some a) ∧
      (∀ m : StatusMessage, m.fits → StatusMessage.read o (m.image o) = some m) := by
  refine ⟨fun h hf => ?_, fun a hf => ?_, fun m hf => ?_⟩
  · simpa using header_read_image o h hf []
  · simpa using append_entries_read_image o a hf []
  · simpa using status_message_read_image o m hf []

/-- C11, at the boundary values: the largest fields, `idx = 0`, and
`idx = prev_idx + 1`, in both byte orders. -/
theorem image_read_round_trip_witness :
    PbftHeader.read ByteOrder.little
        (PbftHeader.image ByteOrder.little ⟨pbft_message, 2 ^ 64 - 1⟩) =
        some ⟨pbft_message, 2 ^ 64 - 1⟩ ∧
      AppendEntries.read ByteOrder.big
        (AppendEntries.image ByteOrder.big ⟨⟨pbft_append_entries, 3⟩, 258, 257⟩) =
        some ⟨⟨pbft_append_entries, 3⟩, 258, 257⟩ ∧
      AppendEntries.read ByteOrder.little
        (AppendEntries.image ByteOrder.little ⟨⟨pbft_append_entries, 3⟩, 0, 0⟩) =
        some ⟨⟨pbft_append_entries, 3⟩, 0, 0⟩ ∧
      StatusMessage.read ByteOrder.little
        (StatusMessage.image ByteOrder.little ⟨⟨pbft_status_message, 2⟩, 0⟩) =
        some ⟨⟨pbft_status_message, 2⟩, 0⟩ :=
  ⟨(image_read_round_trip ByteOrder.little).1 ⟨pbft_message, 2 ^ 64 - 1⟩
      ⟨by decide, by decide⟩,
    (image_read_round_trip ByteOrder.big).2.1 ⟨⟨pbft_append_entries, 3⟩, 258, 257⟩
      ⟨⟨by decide, by decide⟩, by decide, by decide⟩,
    (image_read_round_trip ByteOrder.little).2.1 ⟨⟨pbft_append_entries, 3⟩, 0, 0⟩
      ⟨⟨by decide, by decide⟩, by decide, by decide⟩,
    (image_read_round_trip ByteOrder.little).2.2 ⟨⟨pbft_status_message, 2⟩, 0⟩
      ⟨⟨by decide, by decide⟩, by decide⟩⟩

/-- C12: for either byte order the byte image of a header has 16 bytes, the 8
bytes of the tag followed by the 8 bytes of `from_node`; the image of a
log-replication message has 32 bytes and that of a status message 24; the
first 16 bytes of both are the image of their header, and their first 8 bytes
read back as the tag.  The three tags are 1000, 1001 and 1002, pairwise
distinct. -/
theorem image_layout (o : ByteOrder) :
    (∀ h : PbftHeader,
        (h.image o).length = 16 ∧ (h.image o).take 8 = bytes64 o h.msg ∧
          (h.image o).drop 8 = bytes64 o h.from_node ∧
          (bytes64 o h.from_node).length = 8) ∧
      (∀ a : AppendEntries,
        (a.image o).length = 32 ∧ (a.image o).take 16 = a.toPbftHeader.image o ∧
          (a.msg < 2 ^ 64 → read64 o (a.image o) = a.msg)) ∧
      (∀ m : StatusMessage,
        (m.image o).length = 24 ∧ (m.image o).take 16 = m.toPbftHeader.image o ∧
          (m.msg < 2 ^ 64 → read64 o (m.image o) = m.msg)) ∧
      pbft_message = 1000 ∧ pbft_append_entries = 1001 ∧ pbft_status_message = 1002 ∧
      pbft_message ≠ pbft_append_entries ∧ pbft_message ≠ pbft_status_message ∧
      pbft_append_entries ≠ pbft_status_message := by
  refine ⟨fun h => ⟨header_image_length o h, ?_, ?_, bytes64_length o _⟩,
    fun a => ⟨?_, ?_, fun ha => ?_⟩, fun m => ⟨?_, ?_, fun hm => ?_⟩,
    rfl, rfl, rfl, by decide, by decide, by decide⟩
  · rw [PbftHeader.image, List.take_left' (bytes64_length o _)]
  · rw [PbftHeader.image, List.drop_left' (bytes64_length o _)]
  · simp [AppendEntries.image, header_image_length, bytes64_length]
  · rw [AppendEntries.image, List.append_assoc,
      List.take_left' (header_image_length o _)]
  · simp only [AppendEntries.image, PbftHeader.image, List.append_assoc]
    exact read64_bytes64 o _ ha _
  · simp [StatusMessage.image, header_image_length, bytes64_length]
  · rw [StatusMessage.image, List.take_left' (header_image_length o _)]
  · simp only [StatusMessage.image, PbftHeader.image, List.append_assoc]
    exact read64_bytes64 o _ hm _

/-- C12, for a log-replication message and a status message, least significant
byte first: the images byte by byte. -/
theorem image_layout_witness :
    AppendEntries.image ByteOrder.little ⟨⟨pbft_append_entries, 3⟩, 258, 257⟩ =
        [233, 3, 0, 0, 0, 0, 0, 0, 3, 0, 0, 0, 0, 0, 0, 0,
          2, 1, 0, 0, 0, 0, 0, 0, 1, 1, 0, 0, 0, 0, 0, 0] ∧
      read64 ByteOrder.little
          (AppendEntries.image ByteOrder.little ⟨⟨pbft_append_entries, 3⟩, 258, 257⟩) =
        pbft_append_entries ∧
      StatusMessage.image ByteOrder.little ⟨⟨pbft_status_message, 2⟩, 5⟩ =
        [234, 3, 0, 0, 0, 0, 0, 0, 2, 0, 0, 0, 0, 0, 0, 0, 5, 0, 0, 0, 0, 0, 0, 0] ∧
      read64 ByteOrder.little
          (StatusMessage.image ByteOrder.little ⟨⟨pbft_status_message, 2⟩, 5⟩) =
        pbft_status_message :=
  ⟨by decide,
    ((image_layout ByteOrder.little).2.1 ⟨⟨pbft_append_entries, 3⟩, 258, 257⟩).2.2
      (by decide),
    by decide,
    ((image_layout ByteOrder.little).2.2.1 ⟨⟨pbft_status_message, 2⟩, 5⟩).2.2 (by decide)⟩

/-- C13, as the code has it: `AppendEntries` is a plain record of a header and
two indices; for every pair of 64-bit indices, in any order, there is a
message with these indices. -/
theorem append_entries_any_indices (msg : Node2NodeMsg) (from_node : NodeId)
    (idx prev_idx : Index) (h1 : msg < 2 ^ 64) (h2 : from_node < 2 ^ 64) (h3 : idx < 2 ^ 64)
    (h4 : prev_idx < 2 ^ 64) :
    ∃ a : AppendEntries, a.fits ∧ a.msg = msg ∧ a.from_node = from_node ∧ a.idx = idx ∧
      a.prev_idx = prev_idx :=
  ⟨⟨⟨msg, from_node⟩, idx, prev_idx⟩, ⟨⟨h1, h2⟩, h3, h4⟩, rfl, rfl, rfl, rfl⟩

/-- C13, for the indices `idx = 5` and `prev_idx = 9`. -/
theorem append_entries_any_indices_witness :
    ∃ a : AppendEntries, a.fits ∧ a.msg = pbft_append_entries ∧ a.from_node = 1 ∧ a.idx = 5 ∧
      a.prev_idx = 9 :=
  append_entries_any_indices pbft_append_entries 1 5 9 (by decide) (by decide) (by decide)
    (by decide)

/-- C13 fails: a log-replication message with `idx = 5` and `prev_idx = 9` is
a value of `AppendEntries` with 64-bit fields, and so is one with
`idx = prev_idx = 0`; in neither is `prev_idx` below `idx`. -/
theorem append_entries_unordered :
    (∃ a : AppendEntries, a.fits ∧ a.idx = 5 ∧ a.prev_idx = 9 ∧ a.idx ≤ a.prev_idx) ∧
      ∃ a : AppendEntries, a.fits ∧ a.idx = 0 ∧ a.prev_idx = 0 ∧ a.idx ≤ a.prev_idx :=
  ⟨⟨⟨⟨pbft_append_entries, 1⟩, 5, 9⟩, ⟨⟨by decide, by decide⟩, by decide, by decide⟩, rfl,
      rfl, by decide⟩,
    ⟨⟨⟨pbft_append_entries, 1⟩, 0, 0⟩, ⟨⟨by decide, by decide⟩, by decide, by decide⟩, rfl,
      rfl, by decide⟩⟩

/-! ## One attempt and what it writes -/

/-- C14: an attempt on a locked store calls `next_version`, then `commit` with
the version obtained, the closure made for that same version and `false`.  The
closure, run in any state, calls `set_reserved_version` with that version, then
`get_view` on the map, then `put` of the batch at key 0, then `commit_reserved`,
in this order and nothing else, and its result is that of `commit_reserved`.
A pass of the loop records the two store calls with the same version. -/
theorem attempt_shape (A : Adaptor W B S) (X : TxOps W B) (pp : PrePrepare) (map tx : Nat)
    (w : W) :
    attempt A.T X pp map tx w =
        ((A.T.next_version w).1,
          A.T.commit (A.T.next_version w).1
            (commit_closure X pp map tx (A.T.next_version w).1) false (A.T.next_version w).2) ∧
      (∀ (v : Version) (s : W) (log : List TxCall),
        commit_closure X.logged pp map tx v (s, log) =
          ((X.commit_reserved tx
              (X.put tx map 0 pp (X.get_view tx map (X.set_reserved_version tx v s)))).1,
            (X.commit_reserved tx
              (X.put tx map 0 pp (X.get_view tx map (X.set_reserved_version tx v s)))).2,
            log ++ [TxCall.set_reserved_version tx v, TxCall.get_view tx map,
              TxCall.put tx map 0 pp, TxCall.commit_reserved tx])) ∧
      (∀ (v : Version) (s : W),
        commit_closure X pp map tx v s =
          X.commit_reserved tx
            (X.put tx map 0 pp (X.get_view tx map (X.set_reserved_version tx v s)))) ∧
      (A.expired w = false →
        (A.iteration X pp map tx w).2.2 =
          [Call.next_version (A.T.next_version w).1,
            Call.commit (A.T.next_version w).1 false (attempt A.T X pp map tx w).2.1]) := by
  refine ⟨rfl, fun v s log => ?_, fun v s => rfl, fun h => ?_⟩
  · simp [commit_closure, TxOps.logged]
  · rw [iteration_of_alive A X pp map tx w h]
    rfl

/-- C14, at the store at version 1 and a batch with sequence number 2: the
calls of the closure and of the pass. -/
theorem attempt_shape_witness :
    commit_closure KV.tx.logged ⟨2, [8]⟩ 4 6 2 ({ KV.empty with version := 1 }, []) =
        (CommitSuccess.OK,
          { KV.empty with version := 2, pre_prepares := [(0, ⟨2, [8]⟩)] },
          [TxCall.set_reserved_version 6 2, TxCall.get_view 6 4, TxCall.put 6 4 0 ⟨2, [8]⟩,
            TxCall.commit_reserved 6]) ∧
      (KV.adaptor.iteration KV.tx ⟨2, [8]⟩ 4 6 { KV.empty with version := 1 }).2.2 =
        [Call.next_version 2, Call.commit 2 false CommitSuccess.OK] :=
  ⟨(attempt_shape KV.adaptor KV.tx ⟨2, [8]⟩ 4 6 { KV.empty with version := 1 }).2.1 2
      { KV.empty with version := 1 } [],
    (attempt_shape KV.adaptor KV.tx ⟨2, [8]⟩ 4 6 { KV.empty with version := 1 }).2.2.2
      (by decide)⟩

/-- C15: the closure of an attempt makes one `put`, of the batch under key 0,
whatever its sequence number.  On the store that follows the spec, a
`commit_pre_prepare` that succeeds, after any number of rejected attempts, adds
one entry to the pre-prepares map, the batch under key 0; the map then holds
the batch at key 0 and what it held before at every other key.  After a second
batch is committed the entry at key 0 is the second batch. -/
theorem pre_prepare_stored_at_key_zero (b1 b2 : PrePrepare) (map tx : Nat) (k : Nat) (w : KV)
    (ha : w.alive = true) (ht : w.teardown = none) (hw : w.writes = []) (hh : w.held = k)
    (fuel : Nat) (hf : k < fuel) :
    (∀ (v : Version) (s : KV),
        (commit_closure KV.tx.logged b1 map tx v (s, [])).2.2 =
          [TxCall.set_reserved_version tx v, TxCall.get_view tx map, TxCall.put tx map 0 b1,
            TxCall.commit_reserved tx]) ∧
      ∃ (w1 w2 : KV) (cs1 cs2 : List (Call DeserialiseSuccess)),
        KV.adaptor.commit_pre_prepare KV.tx b1 map tx fuel w = some (w1, cs1) ∧
          w1.pre_prepares = (0, b1) :: w.pre_prepares ∧
          w1.get 0 = some b1 ∧
          (w1.get 0).map PrePrepare.seqno = some b1.seqno ∧
          (∀ key : Nat, key ≠ 0 → w1.get key = w.get key) ∧
          KV.adaptor.commit_pre_prepare KV.tx b2 map tx fuel w1 = some (w2, cs2) ∧
          w2.pre_prepares = (0, b2) :: (0, b1) :: w.pre_prepares ∧
          w2.get 0 = some b2 ∧
          (∀ key : Nat, key ≠ 0 → w2.get key = w.get key) := by
  refine ⟨fun v s => by simp [commit_closure, TxOps.logged], ?_⟩
  have hb : ∀ key : Nat, key ≠ 0 → (key == 0) = false := fun key hk => by simpa using hk
  obtain ⟨w1, cs1, h1, hp1, ha1, ht1, hwr1, hh1⟩ :
      ∃ (w1 : KV) (cs1 : List (Call DeserialiseSuccess)),
        KV.adaptor.commit_pre_prepare KV.tx b1 map tx fuel w = some (w1, cs1) ∧
          w1.pre_prepares = (0, b1) :: w.pre_prepares ∧ w1.alive = true ∧
          w1.teardown = none ∧ w1.writes = [] ∧ w1.held = 0 :=
    ⟨_, _, kv_commit_pre_prepare b1 map tx k w ha ht hw hh fuel hf, rfl, ha, ht, rfl, rfl⟩
  obtain ⟨w2, cs2, h2, hp2⟩ :
      ∃ (w2 : KV) (cs2 : List (Call DeserialiseSuccess)),
        KV.adaptor.commit_pre_prepare KV.tx b2 map tx fuel w1 = some (w2, cs2) ∧
          w2.pre_prepares = (0, b2) :: w1.pre_prepares :=
    ⟨_, _, kv_commit_pre_prepare b2 map tx 0 w1 ha1 ht1 hwr1 hh1 fuel (by omega), rfl⟩
  refine ⟨w1, w2, cs1, cs2, h1, hp1, ?_, ?_, ?_, h2, by rw [hp2, hp1], ?_, ?_⟩
  · simp [KV.get, hp1, List.lookup]
  · simp [KV.get, hp1, List.lookup]
  · intro key hk
    simp [KV.get, hp1, List.lookup, hb key hk]
  · simp [KV.get, hp2, List.lookup]
  · intro key hk
    simp [KV.get, hp2, hp1, List.lookup, hb key hk]

/-- C15, with the store at version 1 holding the batch with sequence number 1,
for the batches with sequence numbers 2 and 3, the first after one conflict. -/
theorem pre_prepare_stored_at_key_zero_witness :
    ∃ (w1 w2 : KV) (cs1 cs2 : List (Call DeserialiseSuccess)),
      KV.adaptor.commit_pre_prepare KV.tx ⟨2, [8]⟩ 0 0 2
          { KV.empty with version := 1, held := 1, pre_prepares := [(0, ⟨1, [7]⟩)] }
          = some (w1, cs1) ∧
        w1.pre_prepares = [(0, ⟨2, [8]⟩), (0, ⟨1, [7]⟩)] ∧
        w1.get 0 = some ⟨2, [8]⟩ ∧
        (w1.get 0).map PrePrepare.seqno = some 2 ∧
        (∀ key : Nat, key ≠ 0 → w1.get key =
          ({ KV.empty with version := 1, held := 1,
                           pre_prepares := [(0, ⟨1, [7]⟩)] } : KV).get key) ∧
        KV.adaptor.commit_pre_prepare KV.tx ⟨3, [9]⟩ 0 0 2 w1 = some (w2, cs2) ∧
        w2.pre_prepares = [(0, ⟨3, [9]⟩), (0, ⟨2, [8]⟩), (0, ⟨1, [7]⟩)] ∧
        w2.get 0 = some ⟨3, [9]⟩ ∧
        (∀ key : Nat, key ≠ 0 → w2.get key =
          ({ KV.empty with version := 1, held := 1,
                           pre_prepares := [(0, ⟨1, [7]⟩)] } : KV).get key) :=
  (pre_prepare_stored_at_key_zero ⟨2, [8]⟩ ⟨3, [9]⟩ 0 0 1
    { KV.empty with version := 1, held := 1, pre_prepares := [(0, ⟨1, [7]⟩)] }
    (by decide) (by decide) (by decide) (by decide) 2 (by decide)).2

end pbft

namespace ccf

variable {R : Type}

/-! ## Roles -/

/-- C16: for every caller and every store, `get_roles` returns the roles stored
for the caller, or no roles when none are stored, with `Admin` added, and leaves
the store as it was; so `Admin` is among the roles returned. -/
theorem get_roles_adds_admin (tx : Tx R) (user : CallerId) :
    (TessApp.get_roles tx user).1 = insert Role.Admin ((tx.user_roles user).getD ∅) ∧
      (TessApp.get_roles tx user).2 = tx ∧
      Role.Admin ∈ (TessApp.get_roles tx user).1 ∧
      ∀ r : Role, r ∈ (TessApp.get_roles tx user).1 ↔
        r = Role.Admin ∨ r ∈ (tx.user_roles user).getD ∅ := by
  refine ⟨rfl, rfl, ?_, fun r => ?_⟩
  · simp [TessApp.get_roles]
  · simp [TessApp.get_roles, MapView.get]

/-- C16, for a caller stored as contributor and for a caller without roles. -/
theorem get_roles_adds_admin_witness :
    (TessApp.get_roles
        { TessApp.empty_store with
          user_roles := fun u => if u = 7 then some {Role.Contributor} else none } 7).1 =
        insert Role.Admin {Role.Contributor} ∧
      (TessApp.get_roles TessApp.empty_store 3).1 = insert Role.Admin ∅ ∧
      Role.Admin ∈ (TessApp.get_roles TessApp.empty_store 3).1 :=
  ⟨(get_roles_adds_admin
      { TessApp.empty_store with
        user_roles := fun u => if u = 7 then some {Role.Contributor} else none } 7).1,
    (get_roles_adds_admin TessApp.empty_store 3).1,
    (get_roles_adds_admin TessApp.empty_store 3).2.2.1⟩

/-! ## Release identifiers -/

theorem get_next_release_result (tx : Tx R) :
    (TessApp.get_next_release tx).1 = (tx.next_release 0).getD 0 ∧
      (TessApp.get_next_release tx).2.next_release 0 =
        some (((tx.next_release 0).getD 0 + 1) % 2 ^ 64) := by
  simp [TessApp.get_next_release, MapView.get, MapView.put]

theorem releases_from (k n : Nat) (tx : Tx R) (h : (tx.next_release 0).getD 0 = n % 2 ^ 64) :
    TessApp.releases k tx = (List.range k).map (fun i => (n + i) % 2 ^ 64) := by
  induction k generalizing n tx with
  | zero => rfl
  | succ k ih =>
    have hr := get_next_release_result tx
    rw [TessApp.releases, hr.1, h, ih (n + 1) _ (by rw [hr.2, h]; simp [Nat.add_mod]),
      List.range_succ_eq_map]
    simp [List.map_map, Function.comp_def, Nat.add_assoc, Nat.add_comm 1]

theorem after_releases_from (k n : Nat) (tx : Tx R)
    (h : (tx.next_release 0).getD 0 = n % 2 ^ 64) :
    ((TessApp.after_releases k tx).next_release 0).getD 0 = (n + k) % 2 ^ 64 := by
  induction k generalizing n tx with
  | zero => simpa [TessApp.after_releases] using h
  | succ k ih =>
    have hr := get_next_release_result tx
    rw [TessApp.after_releases, ih (n + 1) _ (by rw [hr.2, h]; simp [Nat.add_mod])]
    congr 1
    omega

/-- C17, as the code has it: `get_next_release` returns the value stored at
key 0 of the next-release map, 0 when nothing is stored, and leaves that value
plus one, reduced modulo `2 ^ 64`, at key 0, the rest of the store as it was.
Starting from a map without a value at key 0, the call after `k` calls returns
`k` modulo `2 ^ 64`; the first `2 ^ 64` calls return `0, 1, 2, ...` in order,
no identifier twice. -/
theorem get_next_release_consecutive (tx : Tx R) :
    (TessApp.get_next_release tx).1 = (tx.next_release 0).getD 0 ∧
      (TessApp.get_next_release tx).2.next_release 0 =
        some (((tx.next_release 0).getD 0 + 1) % 2 ^ 64) ∧
      (∀ key : Nat, key ≠ 0 →
        (TessApp.get_next_release tx).2.next_release key = tx.next_release key) ∧
      (TessApp.get_next_release tx).2.user_roles = tx.user_roles ∧
      (TessApp.get_next_release tx).2.rest = tx.rest ∧
      (tx.next_release 0 = none →
        ∀ k : Nat, (TessApp.get_next_release (TessApp.after_releases k tx)).1 = k % 2 ^ 64) ∧
      (tx.next_release 0 = none →
        ∀ k : Nat, k ≤ 2 ^ 64 →
          TessApp.releases k tx = List.range k ∧ (TessApp.releases k tx).Nodup) := by
  have hr := get_next_release_result tx
  refine ⟨hr.1, hr.2, fun key hk => ?_, rfl, rfl, fun h0 k => ?_, fun h0 k hk => ?_⟩
  · simp [TessApp.get_next_release, MapView.put, hk]
  · have h := after_releases_from k 0 tx (by simp [h0])
    rw [(get_next_release_result _).1, h, Nat.zero_add]
  · have h := releases_from k 0 tx (by simp [h0])
    have hk2 : TessApp.releases k tx = List.range k := by
      rw [h]
      conv_rhs => rw [← List.map_id (List.range k)]
      apply List.map_congr_left
      intro i hi
      have hi2 : i < k := List.mem_range.mp hi
      simp only [Nat.zero_add, id]
      exact Nat.mod_eq_of_lt (by omega)
    exact ⟨hk2, by rw [hk2]; exact List.nodup_range k⟩

/-- C17 as amended, from the empty store: the call after five calls returns 5
and the first five identifiers are `0, 1, 2, 3, 4`. -/
theorem get_next_release_consecutive_witness :
    (TessApp.get_next_release (TessApp.after_releases 5 TessApp.empty_store)).1 = 5 % 2 ^ 64 ∧
      TessApp.releases 5 TessApp.empty_store = List.range 5 ∧
      (TessApp.releases 5 TessApp.empty_store).Nodup :=
  ⟨(get_next_release_consecutive TessApp.empty_store).2.2.2.2.2.1 rfl 5,
    (get_next_release_consecutive TessApp.empty_store).2.2.2.2.2.2 rfl 5 (by decide)⟩

/-- C17 fails at the largest identifier: in a store with `2 ^ 64 - 1` at key 0
the call returns `2 ^ 64 - 1` and leaves 0, not `2 ^ 64`, at key 0, and the next
call returns 0.  From the empty store the call after `2 ^ 64` calls returns 0,
the identifier that the first call returned, and not `2 ^ 64`. -/
theorem get_next_release_wraps :
    (TessApp.get_next_release
        { TessApp.empty_store with next_release := fun _ => some (2 ^ 64 - 1) }).1 =
        2 ^ 64 - 1 ∧
      (TessApp.get_next_release
        { TessApp.empty_store with next_release := fun _ => some (2 ^ 64 - 1) }).2.next_release
          0 = some 0 ∧
      (TessApp.get_next_release
        (TessApp.get_next_release
          { TessApp.empty_store with next_release := fun _ => some (2 ^ 64 - 1) }).2).1 = 0 ∧
      (TessApp.get_next_release (TessApp.after_releases (2 ^ 64) TessApp.empty_store)).1 = 0 ∧
      (TessApp.get_next_release TessApp.empty_store).1 = 0 := by
  refine ⟨by decide, by decide, by decide, ?_, by decide⟩
  have h := after_releases_from (2 ^ 64) 0 TessApp.empty_store rfl
  rw [(get_next_release_result _).1, h, Nat.zero_add, Nat.mod_self]

/-! ## The read callback -/

theorem curl_readfunc_call (mem : List Nat) (size nitems : Nat) (read_data : CurlReadData)
    (hv : read_data.ptr + read_data.size ≤ mem.length) :
    (curl_readfunc mem size nitems read_data).1 = min (size * nitems % 2 ^ 64) read_data.size ∧
      (curl_readfunc mem size nitems read_data).2.1 =
        (read_data.remaining mem).take (curl_readfunc mem size nitems read_data).1 ∧
      (curl_readfunc mem size nitems read_data).2.1.length =
        (curl_readfunc mem size nitems read_data).1 ∧
      (curl_readfunc mem size nitems read_data).2.2.remaining mem =
        (read_data.remaining mem).drop (curl_readfunc mem size nitems read_data).1 ∧
      (curl_readfunc mem size nitems read_data).2.2.size =
        read_data.size - (curl_readfunc mem size nitems read_data).1 ∧
      (curl_readfunc mem size nitems read_data).2.2.ptr +
        (curl_readfunc mem size nitems read_data).2.2.size ≤ mem.length := by
  have hn : min (size * nitems % 2 ^ 64) read_data.size ≤ read_data.size := Nat.min_le_right _ _
  refine ⟨rfl, ?_, ?_, ?_, rfl, ?_⟩
  · simp only [curl_readfunc, CurlReadData.remaining, List.take_take]
    rw [Nat.min_eq_left hn]
  · simp only [curl_readfunc, List.length_take, List.length_drop]
    omega
  · simp only [curl_readfunc, CurlReadData.remaining, List.drop_take, List.drop_drop]
  · simp only [curl_readfunc]
    omega

theorem curl_reads_sequence (mem : List Nat) (reqs : List (Nat × Nat))
    (read_data : CurlReadData) (hv : read_data.ptr + read_data.size ≤ mem.length) :
    copied_bytes (curl_reads mem reqs read_data).1 ++
          (curl_reads mem reqs read_data).2.remaining mem = read_data.remaining mem ∧
      returned_total (curl_reads mem reqs read_data).1 +
          (curl_reads mem reqs read_data).2.size = read_data.size := by
  induction reqs generalizing read_data with
  | nil => simp [curl_reads, copied_bytes, returned_total]
  | cons q rest ih =>
    obtain ⟨h1, h2, _, h4, h5, h6⟩ := curl_readfunc_call mem q.1 q.2 read_data hv
    obtain ⟨i1, i2⟩ := ih (curl_readfunc mem q.1 q.2 read_data).2.2 h6
    have hn : (curl_readfunc mem q.1 q.2 read_data).1 ≤ read_data.size := by
      rw [h1]
      exact Nat.min_le_right _ _
    refine ⟨?_, ?_⟩
    · simp only [curl_reads, copied_bytes, List.append_assoc]
      rw [i1, h2, h4, List.take_append_drop]
    · simp only [curl_reads, returned_total]
      omega

/-- C18: a call of `curl_readfunc` on `read_data` with `r` bytes left returns
`n`, the smaller of the `size_t` product `size * nitems` and `r`, so at most
`r`; it copies `n` bytes, the first `n` of the bytes left, and leaves the other
`r - n` bytes.  Over any sequence of calls, the chunks copied, one after the
other, are a prefix of the bytes left at the start, followed by the bytes left
at the end, and the counts returned add up to at most `r`. -/
theorem curl_readfunc_within_remaining (mem : List Nat) (read_data : CurlReadData)
    (hv : read_data.ptr + read_data.size ≤ mem.length) :
    (∀ size nitems : Nat,
        (curl_readfunc mem size nitems read_data).1 =
            min (size * nitems % 2 ^ 64) read_data.size ∧
          (size * nitems < 2 ^ 64 →
            (curl_readfunc mem size nitems read_data).1 = min (size * nitems) read_data.size) ∧
          (curl_readfunc mem size nitems read_data).1 ≤ (read_data.remaining mem).length ∧
          (curl_readfunc mem size nitems read_data).2.1 =
            (read_data.remaining mem).take (curl_readfunc mem size nitems read_data).1 ∧
          (curl_readfunc mem size nitems read_data).2.1.length =
            (curl_readfunc mem size nitems read_data).1 ∧
          (curl_readfunc mem size nitems read_data).2.2.remaining mem =
            (read_data.remaining mem).drop (curl_readfunc mem size nitems read_data).1 ∧
          ((curl_readfunc mem size nitems read_data).2.2.remaining mem).length =
            (read_data.remaining mem).length - (curl_readfunc mem size nitems read_data).1) ∧
      ∀ reqs : List (Nat × Nat),
        copied_bytes (curl_reads mem reqs read_data).1 <+: read_data.remaining mem ∧
          copied_bytes (curl_reads mem reqs read_data).1 ++
              (curl_reads mem reqs read_data).2.remaining mem = read_data.remaining mem ∧
          returned_total (curl_reads mem reqs read_data).1 ≤ (read_data.remaining mem).length := by
  have hlen : (read_data.remaining mem).length = read_data.size := by
    simp only [CurlReadData.remaining, List.length_take, List.length_drop]
    omega
  refine ⟨fun size nitems => ?_, fun reqs => ?_⟩
  · obtain ⟨h1, h2, h3, h4, _, _⟩ := curl_readfunc_call mem size nitems read_data hv
    refine ⟨h1, fun hlt => ?_, ?_, h2, h3, h4, ?_⟩
    · rw [h1, Nat.mod_eq_of_lt hlt]
    · rw [h1, hlen]
      exact Nat.min_le_right _ _
    · rw [h4, List.length_drop]
  · obtain ⟨i1, i2⟩ := curl_reads_sequence mem reqs read_data hv
    refine ⟨⟨_, i1⟩, i1, ?_⟩
    rw [hlen]
    omega

/-- C18, for seven bytes of memory of which six are left, and four calls. -/
theorem curl_readfunc_within_remaining_witness :
    curl_readfunc [1, 2, 3, 4, 5, 6, 7] 1 4 ⟨1, 6⟩ = (4, [2, 3, 4, 5], ⟨5, 2⟩) ∧
      (curl_readfunc [1, 2, 3, 4, 5, 6, 7] 1 4 ⟨1, 6⟩).1 = min (1 * 4) 6 ∧
      curl_reads [1, 2, 3, 4, 5, 6, 7] [(1, 4), (2, 5), (1, 1)] ⟨1, 6⟩ =
        ([(4, [2, 3, 4, 5]), (2, [6, 7]), (0, [])], ⟨7, 0⟩) ∧
      copied_bytes (curl_reads [1, 2, 3, 4, 5, 6, 7] [(1, 4), (2, 5), (1, 1)] ⟨1, 6⟩).1 <+:
        CurlReadData.remaining [1, 2, 3, 4, 5, 6, 7] ⟨1, 6⟩ ∧
      returned_total (curl_reads [1, 2, 3, 4, 5, 6, 7] [(1, 4), (2, 5), (1, 1)] ⟨1, 6⟩).1 ≤
        (CurlReadData.remaining [1, 2, 3, 4, 5, 6, 7] ⟨1, 6⟩).length :=
  ⟨by decide,
    ((curl_readfunc_within_remaining [1, 2, 3, 4, 5, 6, 7] ⟨1, 6⟩ (by decide)).1 1 4).2.1
      (by decide),
    by decide,
    ((curl_readfunc_within_remaining [1, 2, 3, 4, 5, 6, 7] ⟨1, 6⟩ (by decide)).2
      [(1, 4), (2, 5), (1, 1)]).1,
    ((curl_readfunc_within_remaining [1, 2, 3, 4, 5, 6, 7] ⟨1, 6⟩ (by decide)).2
      [(1, 4), (2, 5), (1, 1)]).2.2⟩

end ccf
